import Mathlib

/-!
# The fakefs metadata overlay (`fs/fake.c`)

A shallow embedding of the overlay filesystem of `fs/fake.c`: the key codec, the
path/inode index, the attribute store, the VFS operations and the mount check.

* Byte strings (paths, keys, values) are lists of byte values (`List Nat`).
* The key-value store is a finite map from key bytes to value bytes.
* The host filesystem is an abstract state `H`; the calls the overlay makes on it
  (the `realfs` driver and the POSIX calls) are the fields of a `RealFS H`.
* `dword_t` fields are natural numbers reduced modulo `2 ^ 32`.
* `assert` and `DIE` end the process: operations that can reach one return an `Option`.
-/

namespace Fakefs

/-! ## Constants of the guest ABI -/

/-- Modelled from the spec: the file-type mask of a mode, the upper four bits of its
low sixteen bits (`kernel/fs.h` is not among the sources). -/
def S_IFMT : Nat := 0o170000

/-- Modelled from the spec: the file-type bits of a regular file. -/
def S_IFREG : Nat := 0o100000

/-- Modelled from the spec: the file-type bits of a directory. -/
def S_IFDIR : Nat := 0o040000

/-- Modelled from the spec: the file-type bits of a symbolic link. -/
def S_IFLNK : Nat := 0o120000

/-- Modelled from the spec: the guest open flag that requests creation. -/
def O_CREAT_ : Nat := 0o100

/-- Modelled from the spec: the guest errno for a missing entry, as a return value. -/
def _ENOENT : Int := -2

/-- Modelled from the spec: the guest errno for an invalid argument, as a return value. -/
def _EINVAL : Int := -22

/-- Conversion to `dword_t`. -/
def dword (x : Nat) : Nat := x % 2 ^ 32

/-- The 32-bit complement `~S_IFMT`. -/
def notS_IFMT : Nat := 2 ^ 32 - 1 - S_IFMT

/-- The record `struct ish_stat`. -/
structure ish_stat where
  mode : Nat
  uid : Nat
  gid : Nat
  rdev : Nat
  deriving DecidableEq, Repr

/-- The four bytes of a `dword_t`, least significant first. -/
def le32 (x : Nat) : List Nat :=
  [x % 256, x / 256 % 256, x / 65536 % 256, x / 16777216 % 256]

/-- The sixteen bytes of a `struct ish_stat` in memory. -/
def ish_stat.toBytes (s : ish_stat) : List Nat :=
  le32 s.mode ++ le32 s.uid ++ le32 s.gid ++ le32 s.rdev

/-- The `dword_t` held by four bytes. -/
def ofLe32 (b0 b1 b2 b3 : Nat) : Nat :=
  b0 % 256 + 256 * (b1 % 256) + 65536 * (b2 % 256) + 16777216 * (b3 % 256)

/-- The cast `*(struct ish_stat *) d.dptr` of a value whose size is `sizeof(struct ish_stat)`;
`none` is the failed size assertion of `read_stat`. -/
def ish_stat.ofBytes : List Nat → Option ish_stat
  | [a0, a1, a2, a3, b0, b1, b2, b3, c0, c1, c2, c3, d0, d1, d2, d3] =>
    some ⟨ofLe32 a0 a1 a2 a3, ofLe32 b0 b1 b2 b3, ofLe32 c0 c1 c2 c3, ofLe32 d0 d1 d2 d3⟩
  | _ => none

/-! ## The key codec -/

/-- A `datum`: `none` is a null `dptr`, otherwise the `dsize` bytes at `dptr`. -/
abbrev datum := Option (List Nat)

/-- The decimal digits of `n`, least significant first, as ASCII bytes. -/
def digitsRev : Nat → Nat → List Nat
  | 0, _ => []
  | fuel + 1, n => if n < 10 then [48 + n] else (48 + n % 10) :: digitsRev fuel (n / 10)

/-- The output of the conversion `%lu`. -/
def decimal (n : Nat) : List Nat := (digitsRev (n + 1) n).reverse

/-- The bytes of `"inode "`. -/
def inodeTag : List Nat := [105, 110, 111, 100, 101, 32]

/-- The bytes of `"stat "`. -/
def statTag : List Nat := [115, 116, 97, 116, 32]

/-- The bytes of `"db inode"`. -/
def dbInodeKey : List Nat := [100, 98, 32, 105, 110, 111, 100, 101]

/-- The key `make_datum(keydata, "inode %s", path)`. -/
def inodeKey (path : List Nat) : List Nat := inodeTag ++ path

/-- The key `make_datum(keydata, "stat %lu", inode)`. -/
def statKeyOf (inode : Nat) : List Nat := statTag ++ decimal inode

/-- The value of the digits at the head of a byte string, continuing from `acc`. -/
def atolDigits : List Nat → Nat → Nat
  | [], acc => acc
  | b :: rest, acc => if 48 ≤ b ∧ b ≤ 57 then atolDigits rest (10 * acc + (b - 48)) else acc

/-- The number a C string stands for in `strtol(s, NULL, 10)`: white space, an optional
sign, then digits up to the first byte that is not one. The string ends where the value
of the datum ends. -/
def strtolValue : List Nat → Int
  | [] => 0
  | b :: rest =>
    if b = 32 ∨ (9 ≤ b ∧ b ≤ 13) then strtolValue rest
    else if b = 45 then - (atolDigits rest 0 : Int)
    else if b = 43 then (atolDigits rest 0 : Int)
    else (atolDigits (b :: rest) 0 : Int)

/-- The largest `long`. -/
def LONG_MAX : Int := 2 ^ 63 - 1

/-- The smallest `long`. -/
def LONG_MIN : Int := - 2 ^ 63

/-- The C function `atol`, which returns a `long`: as `strtol` it gives `LONG_MAX` or
`LONG_MIN` for a number outside the range of `long`. -/
def atol (s : List Nat) : Int := max LONG_MIN (min LONG_MAX (strtolValue s))

/-! ## The key-value store -/

/-- The contents of the database: key bytes to value bytes. -/
abbrev DB := List Nat → Option (List Nat)

/-- Modelled from the spec: fetch of the key-value store; a null key has no bytes. -/
def gdbm_fetch (db : DB) (key : datum) : datum := db (key.getD [])

/-- Modelled from the spec: put of the key-value store, replacing. -/
def gdbm_store (db : DB) (key : datum) (content : List Nat) : DB :=
  fun k => if k = key.getD [] then some content else db k

/-- Modelled from the spec: delete of the key-value store, no error if absent. -/
def gdbm_delete (db : DB) (key : datum) : DB :=
  fun k => if k = key.getD [] then none else db k

/-! ## The host and the state of a mount -/

/-- The buffer `struct statbuf` as far as the overlay touches it, with three of the
fields the real filesystem fills. -/
structure statbuf where
  mode : Nat
  uid : Nat
  gid : Nat
  rdev : Nat
  inode : Nat
  nlink : Nat
  size : Nat
  deriving DecidableEq, Repr

/-- The result of `realfs.open`: a file descriptor or an error pointer. -/
inductive FdPtr where
  | ok (fd : Int)
  | err (e : Int)
  deriving DecidableEq, Repr

/-- The test `IS_ERR(fd)`. -/
def IS_ERR : FdPtr → Bool
  | FdPtr.ok _ => false
  | FdPtr.err _ => true

/-- The calls the overlay makes on the host, over a host state `H`. A call that fails
returns a negative number; for the POSIX calls that number stands for `-1` with `errno`
set, and `errno_map` turns it into the guest error. Calls that only read the host return
no new state. -/
structure RealFS (H : Type) where
  /-- The call `fstatat(root_fd, fix_path(path), &stat, AT_SYMLINK_NOFOLLOW)`: `st_ino`, or
  `none` when it fails. -/
  fstatat_ino : H → List Nat → Option Nat
  /-- The call `openat(root_fd, fix_path(path), O_RDONLY)`. -/
  openat_rdonly : H → List Nat → Int
  /-- The call `openat(root_fd, fix_path(path), O_WRONLY | O_CREAT | O_EXCL, 0666)`. -/
  openat_creat_excl : H → List Nat → Int × H
  /-- The call `fstat(fd, &stat)`: `st_nlink`, or `none` when it fails. -/
  fstat_nlink : H → Int → Option Nat
  /-- The call `write(fd, target, strlen(target))`. -/
  write : H → Int → List Nat → Int × H
  /-- The call `read(fd, buf, bufsize)`: the result and the bytes put in `buf`. -/
  read : H → Int → Nat → Int × List Nat
  /-- The call `unlinkat(root_fd, fix_path(path), 0)`, result dropped. -/
  unlinkat : H → List Nat → H
  /-- The function `errno_map`, applied to the failure it follows. -/
  errno_map : Int → Int
  /-- The driver call `realfs.open(mount, path, flags, mode)`. -/
  open_ : H → List Nat → Nat → Nat → FdPtr × H
  /-- The driver call `realfs.link`. -/
  link : H → List Nat → List Nat → Int × H
  /-- The driver call `realfs.unlink`. -/
  unlink : H → List Nat → Int × H
  /-- The driver call `realfs.rmdir`. -/
  rmdir : H → List Nat → Int × H
  /-- The driver call `realfs.rename`. -/
  rename : H → List Nat → List Nat → Int × H
  /-- The driver call `realfs.mkdir`. -/
  mkdir : H → List Nat → Nat → Int × H
  /-- The driver call `realfs.stat(mount, path, fake_stat, follow_links)`. -/
  stat : H → List Nat → statbuf → Bool → Int × statbuf
  /-- The driver call `realfs.readlink(mount, path, buf, bufsize)`. -/
  readlink : H → List Nat → Nat → Int × List Nat
  /-- The driver function `realfs_truncate`. -/
  truncate : H → List Nat → Nat → Int × H
  /-- The driver call `realfs.mount`. -/
  mount : H → Int × H
  /-- The call `gdbm_open(db_path, ...)`: the contents of the store, or `none` for `NULL`. -/
  gdbm_open : H → List Nat → Option DB
  /-- The call `fstat(gdbm_fdesc(mount->db), &stat)`: `st_ino`, or `none` when it fails. -/
  db_fstat_ino : H → Option Nat

/-- What an operation does to the store and its lock, in order. -/
inductive Event where
  | lock
  | unlock
  | fetch (key : List Nat)
  | store (key : List Nat)
  | delete (key : List Nat)
  | rebuild
  deriving DecidableEq, Repr

/-- The state an operation runs in: the host, the database, and the events so far. -/
structure World (H : Type) where
  host : H
  db : DB
  trace : List Event

variable {H : Type}

/-! ## Lock and store adapter

The store is reliable: `gdbm_needs_recovery` is false and the only error is
`GDBM_ITEM_NOT_FOUND`, so `check_db_err` returns 0 and each retry loop runs its body once.
`flock` succeeds, so `lock_db` leaves its loop at once. -/

/-- The function `lock_db`. -/
def lock_db (w : World H) : World H :=
  { w with trace := w.trace ++ [Event.lock] }

/-- The function `unlock_db`. -/
def unlock_db (w : World H) : World H :=
  { w with trace := w.trace ++ [Event.unlock] }

/-- The function `read_meta`. -/
def read_meta (w : World H) (key : datum) : datum × World H :=
  (gdbm_fetch w.db key, { w with trace := w.trace ++ [Event.fetch (key.getD [])] })

/-- The function `write_meta`. -/
def write_meta (w : World H) (key : datum) (data : List Nat) : World H :=
  { w with db := gdbm_store w.db key data, trace := w.trace ++ [Event.store (key.getD [])] }

/-- The function `delete_meta`. -/
def delete_meta (w : World H) (key : datum) : World H :=
  { w with db := gdbm_delete w.db key, trace := w.trace ++ [Event.delete (key.getD [])] }

/-! ## Path index and attribute store -/

/-- The function `inode_for_path`. -/
def inode_for_path (fs : RealFS H) (h : H) (path : List Nat) : Nat :=
  match fs.fstatat_ino h path with
  | none => 0
  | some ino => ino

/-- The function `write_path`. -/
def write_path (fs : RealFS H) (w : World H) (path : List Nat) : Nat × World H :=
  let inode := inode_for_path fs w.host path
  if inode ≠ 0 then
    (inode, write_meta w (some (inodeKey path)) (decimal inode))
  else
    (inode, w)

/-- The function `delete_path`. -/
def delete_path (w : World H) (path : List Nat) : World H :=
  delete_meta w (some (inodeKey path))

/-- The function `stat_key`. -/
def stat_key (fs : RealFS H) (w : World H) (path : List Nat) : datum × World H :=
  let r := write_path fs w path
  if r.1 = 0 then
    (none, r.2)
  else
    (some (statKeyOf r.1), r.2)

/-- The function `read_stat`; the outer `none` is the failed size assertion. The record
is returned also when the caller passes a null `stat`. -/
def read_stat (fs : RealFS H) (w : World H) (path : List Nat) :
    Option (Option ish_stat × World H) :=
  let k := stat_key fs w path
  let d := read_meta k.2 k.1
  match d.1 with
  | none => some (none, d.2)
  | some bytes =>
    match ish_stat.ofBytes bytes with
    | none => none
    | some st => some (some st, d.2)

/-- The function `write_stat`; `none` is the failed assertion on the key. -/
def write_stat (fs : RealFS H) (w : World H) (path : List Nat) (stat : ish_stat) :
    Option (World H) :=
  let k := stat_key fs w path
  match k.1 with
  | none => none
  | some key => some (write_meta k.2 (some key) stat.toBytes)

/-! ## The VFS operations

The caller's `current->uid` and `current->gid` are the arguments `uid` and `gid`. -/

/-- The function `fakefs_open`; `mode` is the bit pattern of the `int` argument. -/
def fakefs_open (fs : RealFS H) (uid gid : Nat) (w : World H) (path : List Nat)
    (flags mode : Nat) : Option (FdPtr × World H) :=
  let r := fs.open_ w.host path flags 0o666
  let w1 : World H := { w with host := r.2 }
  if IS_ERR r.1 then
    some (r.1, w1)
  else if flags &&& O_CREAT_ ≠ 0 then
    match read_stat fs w1 path with
    | none => none
    | some (some _, w2) => some (r.1, w2)
    | some (none, w2) =>
      let ishstat : ish_stat := ⟨dword (mode ||| S_IFREG), dword uid, dword gid, 0⟩
      match write_stat fs (lock_db w2) path ishstat with
      | none => none
      | some w3 => some (r.1, unlock_db w3)
  else
    some (r.1, w1)

/-- The function `fakefs_link`. -/
def fakefs_link (fs : RealFS H) (w : World H) (src dst : List Nat) : Int × World H :=
  let w1 := lock_db w
  let r := fs.link w1.host src dst
  let w2 : World H := { w1 with host := r.2 }
  if r.1 < 0 then
    (r.1, unlock_db w2)
  else
    (0, unlock_db (write_path fs w2 dst).2)

/-- The function `fakefs_unlink`. -/
def fakefs_unlink (fs : RealFS H) (w : World H) (path : List Nat) : Int × World H :=
  let fd := fs.openat_rdonly w.host path
  let gone : Bool := decide (0 ≤ fd) && (fs.fstat_nlink w.host fd == some 1)
  let w1 := lock_db w
  let k := stat_key fs w1 path
  let r := fs.unlink k.2.host path
  let w2 : World H := { k.2 with host := r.2 }
  if r.1 < 0 then
    (r.1, unlock_db w2)
  else
    let w3 := delete_path w2 path
    let w4 := if gone then delete_meta w3 k.1 else w3
    (0, unlock_db w4)

/-- The function `fakefs_rmdir`. -/
def fakefs_rmdir (fs : RealFS H) (w : World H) (path : List Nat) : Int × World H :=
  let w1 := lock_db w
  let k := stat_key fs w1 path
  let r := fs.rmdir k.2.host path
  let w2 : World H := { k.2 with host := r.2 }
  if r.1 < 0 then
    (r.1, unlock_db w2)
  else
    (0, unlock_db (delete_meta (delete_path w2 path) k.1))

/-- The function `fakefs_rename`. -/
def fakefs_rename (fs : RealFS H) (w : World H) (src dst : List Nat) : Int × World H :=
  let w1 := lock_db w
  let k := stat_key fs w1 dst
  let old_dst_inode := inode_for_path fs k.2.host dst
  let r := fs.rename k.2.host src dst
  let w2 : World H := { k.2 with host := r.2 }
  if r.1 < 0 then
    (r.1, unlock_db w2)
  else
    let w3 := (write_path fs w2 dst).2
    let w4 := delete_path w3 src
    let w5 :=
      if old_dst_inode ≠ 0 ∧ old_dst_inode ≠ inode_for_path fs w4.host dst then
        delete_meta w4 k.1
      else w4
    (0, unlock_db w5)

/-- The function `fakefs_symlink`. -/
def fakefs_symlink (fs : RealFS H) (uid gid : Nat) (w : World H) (target link : List Nat) :
    Option (Int × World H) :=
  let w1 := lock_db w
  let o := fs.openat_creat_excl w1.host link
  let w2 : World H := { w1 with host := o.2 }
  if o.1 < 0 then
    some (fs.errno_map o.1, unlock_db w2)
  else
    let r := fs.write w2.host o.1 target
    let w3 : World H := { w2 with host := r.2 }
    if r.1 < 0 then
      let w4 : World H := { w3 with host := fs.unlinkat w3.host link }
      some (fs.errno_map r.1, unlock_db w4)
    else
      let ishstat : ish_stat := ⟨dword (S_IFLNK ||| 0o777), dword uid, dword gid, 0⟩
      match write_stat fs w3 link ishstat with
      | none => none
      | some w4 => some (0, unlock_db w4)

/-- The function `fakefs_stat`; `fake_stat` is the caller's buffer, returned as left. -/
def fakefs_stat (fs : RealFS H) (w : World H) (path : List Nat) (fake_stat : statbuf)
    (follow_links : Bool) : Option (Int × statbuf × World H) :=
  match read_stat fs (lock_db w) path with
  | none => none
  | some (none, w1) => some (_ENOENT, fake_stat, unlock_db w1)
  | some (some ishstat, w1) =>
    let r := fs.stat w1.host path fake_stat follow_links
    let w2 := unlock_db w1
    if r.1 < 0 then
      some (r.1, r.2, w2)
    else
      some (0, { r.2 with mode := ishstat.mode, uid := ishstat.uid, gid := ishstat.gid,
                          rdev := ishstat.rdev }, w2)

/-- The argument `struct attr`: its type tag with the member of the union it selects. -/
inductive attr where
  | uid (v : Nat)
  | gid (v : Nat)
  | mode (v : Nat)
  | size (v : Nat)
  deriving DecidableEq, Repr

/-- The function `fakefs_setattr`. -/
def fakefs_setattr (fs : RealFS H) (w : World H) (path : List Nat) (a : attr) :
    Option (Int × World H) :=
  match read_stat fs (lock_db w) path with
  | none => none
  | some (none, w1) => some (_ENOENT, unlock_db w1)
  | some (some ishstat, w1) =>
    match a with
    | attr.size v =>
      let w2 := unlock_db w1
      let r := fs.truncate w2.host path v
      some (r.1, { w2 with host := r.2 })
    | attr.uid v =>
      (write_stat fs w1 path { ishstat with uid := dword v }).map fun w2 => (0, unlock_db w2)
    | attr.gid v =>
      (write_stat fs w1 path { ishstat with gid := dword v }).map fun w2 => (0, unlock_db w2)
    | attr.mode v =>
      (write_stat fs w1 path
        { ishstat with mode := dword ((ishstat.mode &&& S_IFMT) ||| (v &&& notS_IFMT)) }).map
        fun w2 => (0, unlock_db w2)

/-- The function `fakefs_mkdir`. -/
def fakefs_mkdir (fs : RealFS H) (uid gid : Nat) (w : World H) (path : List Nat) (mode : Nat) :
    Option (Int × World H) :=
  let w1 := lock_db w
  let r := fs.mkdir w1.host path 0o777
  let w2 : World H := { w1 with host := r.2 }
  if r.1 < 0 then
    some (r.1, unlock_db w2)
  else
    let ishstat : ish_stat := ⟨dword (mode ||| S_IFDIR), dword uid, dword gid, 0⟩
    match write_stat fs w2 path ishstat with
    | none => none
    | some w3 => some (0, unlock_db w3)

/-- The bytes of `"data"`. -/
def dataName : List Nat := [100, 97, 116, 97]

/-- The bytes of `"meta.db"`. -/
def metaName : List Nat := [109, 101, 116, 97, 46, 100, 98]

/-- The split of a string at `strrchr(s, '/') + 1`: what is up to and including the last
slash, and what follows it; `none` when there is no slash. -/
def splitBasename (s : List Nat) : Option (List Nat × List Nat) :=
  if 47 ∈ s then
    some ((s.reverse.dropWhile (· ≠ 47)).reverse, (s.reverse.takeWhile (· ≠ 47)).reverse)
  else
    none

/-- The function `fakefs_mount`, over the external `fakefs_rebuild`; `none` is a failed
assertion, a missing slash in the source, or `DIE`. -/
def fakefs_mount (fs : RealFS H) (fakefs_rebuild : World H → List Nat → Int × World H)
    (source : List Nat) (w : World H) : Option (Int × World H) :=
  match splitBasename source with
  | none => none
  | some (dir, basename) =>
    if basename ≠ dataName then none
    else
      let db_path := dir ++ metaName
      match fs.gdbm_open w.host db_path with
      | none => some (_EINVAL, w)
      | some db =>
        let w1 : World H := { w with db := db }
        let m := fs.mount w1.host
        let w2 : World H := { w1 with host := m.2 }
        if m.1 < 0 then
          some (m.1, w2)
        else
          match fs.db_fstat_ino w2.host with
          | none => none
          | some st_ino =>
            let value := gdbm_fetch w2.db (some dbInodeKey)
            let w3 : World H := { w2 with trace := w2.trace ++ [Event.fetch dbInodeKey] }
            let store (w4 : World H) : Option (Int × World H) :=
              some (0, { w4 with
                db := gdbm_store w4.db (some dbInodeKey) (decimal st_ino ++ [0]),
                trace := w4.trace ++ [Event.store dbInodeKey] })
            match value with
            | none => store w3
            | some v =>
              if atol v % 2 ^ 64 ≠ ((st_ino % 2 ^ 64 : Nat) : Int) then
                let rb := fakefs_rebuild { w3 with trace := w3.trace ++ [Event.rebuild] } db_path
                if rb.1 < 0 then
                  some (rb.1, rb.2)
                else
                  store rb.2
              else
                store w3

/-! ## The operations table -/

/-- A call through the table `fakefs` that changes the namespace. -/
inductive Call where
  | open_ (path : List Nat) (flags mode : Nat)
  | link (src dst : List Nat)
  | unlink (path : List Nat)
  | rmdir (path : List Nat)
  | rename (src dst : List Nat)
  | symlink (target link : List Nat)
  | mkdir (path : List Nat) (mode : Nat)
  deriving DecidableEq, Repr

/-- The state after a call, with whether the call succeeded; `none` when the process
was ended. -/
def exec (fs : RealFS H) (uid gid : Nat) (w : World H) : Call → Option (Bool × World H)
  | Call.open_ path flags mode =>
    (fakefs_open fs uid gid w path flags mode).map fun r => (!IS_ERR r.1, r.2)
  | Call.link src dst =>
    let r := fakefs_link fs w src dst
    some (decide (0 ≤ r.1), r.2)
  | Call.unlink path =>
    let r := fakefs_unlink fs w path
    some (decide (0 ≤ r.1), r.2)
  | Call.rmdir path =>
    let r := fakefs_rmdir fs w path
    some (decide (0 ≤ r.1), r.2)
  | Call.rename src dst =>
    let r := fakefs_rename fs w src dst
    some (decide (0 ≤ r.1), r.2)
  | Call.symlink target link =>
    (fakefs_symlink fs uid gid w target link).map fun r => (decide (0 ≤ r.1), r.2)
  | Call.mkdir path mode =>
    (fakefs_mkdir fs uid gid w path mode).map fun r => (decide (0 ≤ r.1), r.2)

/-! ## A small Unix host

Modelled from the spec: the real-filesystem driver and the host calls are not among the
sources, and the spec takes them to obey Unix semantics. This is one instance of `RealFS`
on which the operations can be run: a table of names (absolute paths) with their inode
numbers, a table of inodes, and the inode number the host gives to the next new file.
Hard links are names that share an inode number. A descriptor is the number of the inode
it is open on. Host and guest errnos have the same (Linux) numbers. -/

/-- The value a table gives a key: that of the first entry with the key. -/
def assoc {α β : Type} [DecidableEq α] : List (α × β) → α → Option β
  | [], _ => none
  | (k, v) :: rest, a => if a = k then some v else assoc rest a

/-- What an inode of the host holds. -/
inductive Node where
  | reg (content : List Nat)
  | dir
  | lnk (target : List Nat)
  deriving DecidableEq, Repr

/-- The state of the host. -/
structure UHost where
  names : List (List Nat × Nat)
  nodes : List (Nat × Node)
  fresh : Nat
  dbino : Nat
  dbpath : List Nat
  disk : List (List Nat × List Nat)
  deriving DecidableEq, Repr

namespace UHost

/-- The inode a name refers to, symbolic links not followed. -/
def ino (h : UHost) (p : List Nat) : Option Nat := assoc h.names p

/-- The contents of an inode. -/
def node (h : UHost) (i : Nat) : Option Node := assoc h.nodes i

/-- The inode a name refers to, symbolic links followed. -/
def follow : Nat → UHost → List Nat → Option Nat
  | 0, _, _ => none
  | fuel + 1, h, p =>
    match h.ino p with
    | none => none
    | some i =>
      match h.node i with
      | some (Node.lnk t) => follow fuel h t
      | _ => some i

/-- The link count of an inode. -/
def nlinkOf (h : UHost) (i : Nat) : Nat :=
  match h.node i with
  | some Node.dir => 2
  | _ => (h.names.filter fun e => e.2 = i).length

/-- Whether an inode is a directory. -/
def isDir (h : UHost) (i : Nat) : Bool := h.node i == some Node.dir

/-- Whether `q` lies beneath the directory `p`. -/
def beneath (p q : List Nat) : Bool := (p ++ [47]).isPrefixOf q

/-- Whether a directory has entries. -/
def hasEntries (h : UHost) (p : List Nat) : Bool := h.names.any fun e => beneath p e.1

/-- The name of the directory that holds `p`; empty for the root. -/
def parent (p : List Nat) : List Nat := ((p.reverse.dropWhile (· ≠ 47)).drop 1).reverse

/-- Whether the directory that holds `p` exists. -/
def parentOk (h : UHost) (p : List Nat) : Bool :=
  parent p == [] || (match h.ino (parent p) with
    | some i => h.isDir i
    | none => false)

/-- A new inode under a new name. -/
def create (h : UHost) (p : List Nat) (n : Node) : UHost :=
  { h with
    names := h.names ++ [(p, h.fresh)]
    nodes := h.nodes ++ [(h.fresh, n)]
    fresh := (h.nodes.map Prod.fst).foldl max h.fresh + 1 }

/-- The inode table without the inodes no name refers to any more. -/
def sweep (h : UHost) : UHost :=
  { h with nodes := h.nodes.filter fun n => h.names.any fun e => e.2 = n.1 }

/-- The host mode of an inode. -/
def hostMode : Node → Nat
  | Node.reg _ => S_IFREG ||| 0o644
  | Node.dir => S_IFDIR ||| 0o755
  | Node.lnk _ => S_IFLNK ||| 0o777

/-- The size of an inode. -/
def sizeOf : Node → Nat
  | Node.reg c => c.length
  | Node.dir => 0
  | Node.lnk t => t.length

/-- The host call `unlink`. -/
def unlink (h : UHost) (p : List Nat) : Int × UHost :=
  match h.ino p with
  | none => (-2, h)
  | some i =>
    if h.isDir i then (-21, h)
    else (0, sweep { h with names := h.names.filter fun e => e.1 ≠ p })

/-- The host call `rmdir`. -/
def rmdir (h : UHost) (p : List Nat) : Int × UHost :=
  match h.ino p with
  | none => (-2, h)
  | some i =>
    if !h.isDir i then (-20, h)
    else if h.hasEntries p then (-39, h)
    else (0, sweep { h with names := h.names.filter fun e => e.1 ≠ p })

/-- The host call `link`. -/
def link (h : UHost) (s d : List Nat) : Int × UHost :=
  match h.ino s with
  | none => (-2, h)
  | some i =>
    if h.isDir i then (-1, h)
    else if (h.ino d).isSome then (-17, h)
    else if !h.parentOk d then (-2, h)
    else (0, { h with names := h.names ++ [(d, i)] })

/-- The names after `s` and all that lies beneath it moved to `d`. -/
def moveNames (names : List (List Nat × Nat)) (s d : List Nat) : List (List Nat × Nat) :=
  (names.filter fun e => e.1 ≠ d).map fun e =>
    if e.1 = s then (d, e.2)
    else if beneath s e.1 then (d ++ e.1.drop s.length, e.2)
    else e

/-- The host call `rename`: when both names refer to one file it does nothing and
succeeds; otherwise the name and all beneath it move, replacing the destination. -/
def rename (h : UHost) (s d : List Nat) : Int × UHost :=
  match h.ino s with
  | none => (-2, h)
  | some i =>
    if beneath s d then (-22, h)
    else
      match h.ino d with
      | some j =>
        if j = i then (0, h)
        else if h.isDir i && !h.isDir j then (-20, h)
        else if !h.isDir i && h.isDir j then (-21, h)
        else if h.hasEntries d then (-39, h)
        else (0, sweep { h with names := moveNames h.names s d })
      | none =>
        if !h.parentOk d then (-2, h)
        else (0, { h with names := moveNames h.names s d })

/-- The host call `mkdir`. -/
def mkdir (h : UHost) (p : List Nat) (_mode : Nat) : Int × UHost :=
  if (h.ino p).isSome then (-17, h)
  else if !h.parentOk p then (-2, h)
  else (0, h.create p Node.dir)

/-- The driver call `realfs.open`. -/
def open_ (h : UHost) (p : List Nat) (flags _mode : Nat) : FdPtr × UHost :=
  match h.follow 8 p with
  | some i => (FdPtr.ok i, h)
  | none =>
    if flags &&& O_CREAT_ ≠ 0 ∧ h.ino p = none ∧ h.parentOk p then
      (FdPtr.ok h.fresh, h.create p (Node.reg []))
    else (FdPtr.err (-2), h)

/-- The host call `openat` with `O_RDONLY`. -/
def openat_rdonly (h : UHost) (p : List Nat) : Int :=
  match h.follow 8 p with
  | some i => i
  | none => -2

/-- The host call `openat` with `O_WRONLY | O_CREAT | O_EXCL`. -/
def openat_creat_excl (h : UHost) (p : List Nat) : Int × UHost :=
  if (h.ino p).isSome then (-17, h)
  else if !h.parentOk p then (-2, h)
  else (h.fresh, h.create p (Node.reg []))

/-- The host call `fstat`, for its link count. -/
def fstat_nlink (h : UHost) (fd : Int) : Option Nat :=
  if fd < 0 then none
  else (h.node fd.toNat).map fun _ => h.nlinkOf fd.toNat

/-- The host call `write` on a descriptor of a regular file. -/
def write (h : UHost) (fd : Int) (bytes : List Nat) : Int × UHost :=
  if fd < 0 then (-9, h)
  else
    match h.node fd.toNat with
    | some (Node.reg c) =>
      (bytes.length, { h with nodes := h.nodes.map fun n =>
        if n.1 = fd.toNat then (n.1, Node.reg (c ++ bytes)) else n })
    | _ => (-9, h)

/-- The host call `read`, from the start of the file. -/
def read (h : UHost) (fd : Int) (bufsize : Nat) : Int × List Nat :=
  if fd < 0 then (-9, [])
  else
    match h.node fd.toNat with
    | some (Node.reg c) => ((c.take bufsize).length, c.take bufsize)
    | some Node.dir => (-21, [])
    | _ => (-9, [])

/-- The driver call `realfs.stat`. -/
def stat (h : UHost) (p : List Nat) (sb : statbuf) (follow_links : Bool) : Int × statbuf :=
  match (if follow_links then h.follow 8 p else h.ino p) with
  | none => (-2, sb)
  | some i =>
    match h.node i with
    | none => (-2, sb)
    | some n => (0, ⟨hostMode n, 501, 20, 0, i, h.nlinkOf i, sizeOf n⟩)

/-- The driver call `realfs.readlink`. -/
def readlink (h : UHost) (p : List Nat) (bufsize : Nat) : Int × List Nat :=
  match h.ino p with
  | none => (-2, [])
  | some i =>
    match h.node i with
    | some (Node.lnk t) => ((t.take bufsize).length, t.take bufsize)
    | _ => (-22, [])

/-- The driver function `realfs_truncate`. -/
def truncate (h : UHost) (p : List Nat) (size : Nat) : Int × UHost :=
  match h.follow 8 p with
  | none => (-2, h)
  | some i =>
    match h.node i with
    | some (Node.reg c) =>
      (0, { h with nodes := h.nodes.map fun n =>
        if n.1 = i then (n.1, Node.reg ((c ++ List.replicate (size - c.length) 0).take size))
        else n })
    | _ => (-21, h)

end UHost

/-- Modelled from the spec: the small Unix host as a `RealFS`. -/
def unixfs : RealFS UHost where
  fstatat_ino := UHost.ino
  openat_rdonly := UHost.openat_rdonly
  openat_creat_excl := UHost.openat_creat_excl
  fstat_nlink := UHost.fstat_nlink
  write := UHost.write
  read := UHost.read
  unlinkat := fun h p => (UHost.unlink h p).2
  errno_map := fun e => e
  open_ := UHost.open_
  link := UHost.link
  unlink := UHost.unlink
  rmdir := UHost.rmdir
  rename := UHost.rename
  mkdir := UHost.mkdir
  stat := UHost.stat
  readlink := UHost.readlink
  truncate := UHost.truncate
  mount := fun h => (0, h)
  gdbm_open := fun h path => if path = h.dbpath then some (assoc h.disk) else none
  db_fstat_ino := fun h => some h.dbino

/-- The bytes of a string. -/
def bytes (s : String) : List Nat := s.toList.map Char.toNat

/-- A database with the given records. -/
def dbOf (records : List (List Nat × List Nat)) : DB := assoc records

/-! ## Auxiliary definitions -/

/-- An empty `struct statbuf`. -/
def statbuf.zero : statbuf := ⟨0, 0, 0, 0, 0, 0, 0⟩

/-- The result of `fakefs_stat` on an empty buffer with the buffer it leaves, links not
followed. -/
def statOf (fs : RealFS H) (w : World H) (path : List Nat) : Option (Int × statbuf) :=
  (fakefs_stat fs w path statbuf.zero false).map fun r => (r.1, r.2.1)

/-- Invariant I1 (attribute existence): each path that exists on the host has a record
`stat <inode>` under the inode it resolves to. -/
def I1 (fs : RealFS H) (w : World H) : Prop :=
  ∀ q, inode_for_path fs w.host q ≠ 0 →
    w.db (statKeyOf (inode_for_path fs w.host q)) ≠ none

/-- Whether each fetch, store and delete of a trace lies after a lock and before the
unlock that follows it; `held` tells whether the lock is held at the start. -/
def lockedThroughout : Bool → List Event → Bool
  | _, [] => true
  | _, Event.lock :: rest => lockedThroughout true rest
  | _, Event.unlock :: rest => lockedThroughout false rest
  | held, Event.rebuild :: rest => lockedThroughout held rest
  | held, Event.fetch _ :: rest => held && lockedThroughout held rest
  | held, Event.store _ :: rest => held && lockedThroughout held rest
  | held, Event.delete _ :: rest => held && lockedThroughout held rest

/-- Invariant I2 (index freshness): each record `inode <path>` holds the inode the path
has on the host, unless the path does not exist. -/
def I2 (fs : RealFS H) (w : World H) : Prop :=
  ∀ q v, w.db (inodeKey q) = some v →
    inode_for_path fs w.host q = 0 ∨ v = decimal (inode_for_path fs w.host q)

/-- The path a call names as the one to come into being or to be replaced. -/
def Call.creates : Call → List Nat → Bool
  | Call.open_ path flags _, q => decide (q = path) && decide (flags &&& O_CREAT_ ≠ 0)
  | Call.link _ dst, q => decide (q = dst)
  | Call.unlink _, _ => false
  | Call.rmdir _, _ => false
  | Call.rename _ dst, q => decide (q = dst)
  | Call.symlink _ l, q => decide (q = l)
  | Call.mkdir path _, q => decide (q = path)

/-- The path whose stat key a call computes, and whose record `inode <path>` it so writes,
before its host call. -/
def Call.keyed : Call → List Nat → Bool
  | Call.open_ _ _ _, _ => false
  | Call.link _ _, _ => false
  | Call.unlink path, q => decide (q = path)
  | Call.rmdir path, q => decide (q = path)
  | Call.rename _ dst, q => decide (q = dst)
  | Call.symlink _ _, _ => false
  | Call.mkdir _ _, _ => false

/-- The database with the record `inode <path>` set to the inode the path has on the
host, when it has one. -/
def refresh (fs : RealFS H) (h : H) (db : DB) (path : List Nat) : DB :=
  if inode_for_path fs h path = 0 then db
  else gdbm_store db (some (inodeKey path)) (decimal (inode_for_path fs h path))

/-! ## States of the small host used in the examples -/

/-- A host with an empty root whose next new file gets inode 5, and a database that still
holds a record under `stat 5`: directory, mode 0700, owner 7. -/
def staleWorld : World UHost :=
  ⟨⟨[], [], 5, 99, bytes "/fs/meta.db", []⟩,
    dbOf [(statKeyOf 5, (⟨S_IFDIR ||| 0o700, 7, 7, 0⟩ : ish_stat).toBytes)], []⟩

/-- A host with an empty root whose next new file gets inode 5, and an empty database. -/
def emptyWorld : World UHost :=
  ⟨⟨[], [], 5, 99, bytes "/fs/meta.db", []⟩, dbOf [], []⟩

/-- A host with one regular file `/f`, inode 5, and a database with its two records:
mode 0644, owner 1000. -/
def fileWorld : World UHost :=
  ⟨⟨[(bytes "/f", 5)], [(5, Node.reg [])], 6, 99, bytes "/fs/meta.db", []⟩,
    dbOf [(inodeKey (bytes "/f"), decimal 5),
      (statKeyOf 5, (⟨S_IFREG ||| 0o644, 1000, 1000, 0⟩ : ish_stat).toBytes)], []⟩

/-- The records on disk of a database whose file has inode 99 and that was mounted
before. -/
def mountedDisk : List (List Nat × List Nat) :=
  [(dbInodeKey, decimal 99 ++ [0]), (inodeKey (bytes "/f"), decimal 5),
    (statKeyOf 5, (⟨S_IFREG ||| 0o644, 1000, 1000, 0⟩ : ish_stat).toBytes)]

/-- A state before mount: the host holds `/f` and the database file `/fs/meta.db`,
inode 99. -/
def unmountedWorld : World UHost :=
  ⟨⟨[(bytes "/f", 5)], [(5, Node.reg [])], 6, 99, bytes "/fs/meta.db", mountedDisk⟩,
    dbOf [], []⟩

/-- A host with the directory `/a`, inode 3, and the file `/a/f`, inode 7, and a database
with their stat records and no `inode` record. -/
def dirWorld : World UHost :=
  ⟨⟨[(bytes "/a", 3), (bytes "/a/f", 7)], [(3, Node.dir), (7, Node.reg [])], 8, 99,
      bytes "/fs/meta.db", []⟩,
    dbOf [(statKeyOf 3, (⟨S_IFDIR ||| 0o755, 1000, 1000, 0⟩ : ish_stat).toBytes),
      (statKeyOf 7, (⟨S_IFREG ||| 0o644, 1000, 1000, 0⟩ : ish_stat).toBytes)], []⟩

/-- A host with the file `/s`, inode 1, and the two names `/d` and `/d2` of the file with
inode 2, and a database with all their records: `/s` has mode 0644 and owner 42, the
other file mode 0600 and owner 7. -/
def linkWorld : World UHost :=
  ⟨⟨[(bytes "/s", 1), (bytes "/d", 2), (bytes "/d2", 2)], [(1, Node.reg [1]), (2, Node.reg [2])],
      3, 99, bytes "/fs/meta.db", []⟩,
    dbOf [(inodeKey (bytes "/s"), decimal 1), (inodeKey (bytes "/d"), decimal 2),
      (inodeKey (bytes "/d2"), decimal 2),
      (statKeyOf 1, (⟨S_IFREG ||| 0o644, 42, 42, 0⟩ : ish_stat).toBytes),
      (statKeyOf 2, (⟨S_IFREG ||| 0o600, 7, 7, 0⟩ : ish_stat).toBytes)], []⟩

/-- A host with the directories `/a`, inode 3, and `/c`, inode 4, each with a file `f`,
inodes 7 and 9, and a database with their records and with the record `inode /b/f` that
the rename of `/b` to `/c` left behind. -/
def dirRenameWorld : World UHost :=
  ⟨⟨[(bytes "/a", 3), (bytes "/a/f", 7), (bytes "/c", 4), (bytes "/c/f", 9)],
      [(3, Node.dir), (7, Node.reg []), (4, Node.dir), (9, Node.reg [])], 10, 99,
      bytes "/fs/meta.db", []⟩,
    dbOf [(inodeKey (bytes "/a"), decimal 3), (inodeKey (bytes "/a/f"), decimal 7),
      (inodeKey (bytes "/c"), decimal 4), (inodeKey (bytes "/c/f"), decimal 9),
      (inodeKey (bytes "/b/f"), decimal 9),
      (statKeyOf 3, (⟨S_IFDIR ||| 0o755, 1000, 1000, 0⟩ : ish_stat).toBytes),
      (statKeyOf 7, (⟨S_IFREG ||| 0o644, 1000, 1000, 0⟩ : ish_stat).toBytes),
      (statKeyOf 4, (⟨S_IFDIR ||| 0o755, 1000, 1000, 0⟩ : ish_stat).toBytes),
      (statKeyOf 9, (⟨S_IFREG ||| 0o600, 7, 7, 0⟩ : ish_stat).toBytes)], []⟩

/-- The state `dirRenameWorld` without the record `inode /b/f`. -/
def dirCleanWorld : World UHost :=
  ⟨dirRenameWorld.host,
    dbOf [(inodeKey (bytes "/a"), decimal 3), (inodeKey (bytes "/a/f"), decimal 7),
      (inodeKey (bytes "/c"), decimal 4), (inodeKey (bytes "/c/f"), decimal 9),
      (statKeyOf 3, (⟨S_IFDIR ||| 0o755, 1000, 1000, 0⟩ : ish_stat).toBytes),
      (statKeyOf 7, (⟨S_IFREG ||| 0o644, 1000, 1000, 0⟩ : ish_stat).toBytes),
      (statKeyOf 4, (⟨S_IFDIR ||| 0o755, 1000, 1000, 0⟩ : ish_stat).toBytes),
      (statKeyOf 9, (⟨S_IFREG ||| 0o600, 7, 7, 0⟩ : ish_stat).toBytes)], []⟩

/-- A host with one symbolic link `/l`, inode 6, to the missing `/gone`, and a database
with its two records. -/
def danglingWorld : World UHost :=
  ⟨⟨[(bytes "/l", 6)], [(6, Node.lnk (bytes "/gone"))], 7, 99, bytes "/fs/meta.db", []⟩,
    dbOf [(inodeKey (bytes "/l"), decimal 6),
      (statKeyOf 6, (⟨S_IFLNK ||| 0o777, 1000, 1000, 0⟩ : ish_stat).toBytes)], []⟩

/-- A state before mount in which the database file has inode `2 ^ 63 + 5` and the
database on disk holds, under `db inode`, the decimal digits of that inode and a NUL, as
a mount before wrote them. -/
def bigInodeWorld : World UHost :=
  ⟨⟨[(bytes "/f", 5)], [(5, Node.reg [])], 6, 9223372036854775813, bytes "/fs/meta.db",
      [(dbInodeKey, decimal 9223372036854775813 ++ [0]), (inodeKey (bytes "/f"), decimal 5),
        (statKeyOf 5, (⟨S_IFREG ||| 0o644, 1000, 1000, 0⟩ : ish_stat).toBytes)]⟩,
    dbOf [], []⟩

section Lemmas

variable {H : Type}

theorem atolDigits_digitsRev (fuel n : Nat) (tail : List Nat) (h : n < fuel) :
    atolDigits ((digitsRev fuel n).reverse ++ tail) 0 = atolDigits tail n := by
  induction fuel generalizing n tail with
  | zero => omega
  | succ k ih =>
    unfold digitsRev
    split_ifs with h10
    · have h1 : 48 ≤ 48 + n ∧ 48 + n ≤ 57 := by omega
      simp [atolDigits, h1]
    · have hk : n / 10 < k := by omega
      have h1 : 48 ≤ 48 + n % 10 ∧ 48 + n % 10 ≤ 57 := by omega
      rw [List.reverse_cons, List.append_assoc, ih (n / 10) _ hk]
      simp only [List.singleton_append, atolDigits, h1, and_self, if_true]
      congr 1
      omega

theorem digitsRev_getLast (fuel n : Nat) (h : n < fuel) :
    ∃ b rest, (digitsRev fuel n).reverse = b :: rest ∧ 48 ≤ b ∧ b ≤ 57 := by
  induction fuel generalizing n with
  | zero => omega
  | succ k ih =>
    unfold digitsRev
    split_ifs with h10
    · exact ⟨48 + n, [], by simp, by omega, by omega⟩
    · have hk : n / 10 < k := by omega
      obtain ⟨b, rest, hb, h1, h2⟩ := ih (n / 10) hk
      exact ⟨b, rest ++ [48 + n % 10], by simp [hb], h1, h2⟩

theorem strtolValue_decimal (n : Nat) : strtolValue (decimal n ++ [0]) = (n : Int) := by
  obtain ⟨b, rest, hb, h1, h2⟩ := digitsRev_getLast (n + 1) n (Nat.lt_succ_self n)
  have hd := atolDigits_digitsRev (n + 1) n [0] (Nat.lt_succ_self n)
  unfold decimal
  rw [hb] at hd ⊢
  have hn1 : ¬ (b = 32 ∨ (9 ≤ b ∧ b ≤ 13)) := by omega
  have hn2 : ¬ b = 45 := by omega
  have hn3 : ¬ b = 43 := by omega
  simp only [List.cons_append, strtolValue, hn1, hn2, hn3, if_false]
  rw [List.cons_append] at hd
  have hd2 : atolDigits (b :: rest.append [0]) 0 = atolDigits [0] n := hd
  rw [hd2]
  simp [atolDigits]

theorem atol_decimal (n : Nat) (h : n < 2 ^ 63) : atol (decimal n ++ [0]) = (n : Int) := by
  unfold atol LONG_MAX LONG_MIN
  rw [strtolValue_decimal]
  omega

theorem atol_decimal_large (n : Nat) (h : 2 ^ 63 ≤ n) :
    atol (decimal n ++ [0]) = 2 ^ 63 - 1 := by
  unfold atol LONG_MAX LONG_MIN
  rw [strtolValue_decimal]
  omega

theorem inodeKey_inj {p q : List Nat} : inodeKey p = inodeKey q ↔ p = q := by
  simp [inodeKey]

theorem inodeKey_ne_statKeyOf (p : List Nat) (i : Nat) : inodeKey p ≠ statKeyOf i := by
  simp [inodeKey, statKeyOf, inodeTag, statTag]

theorem statKeyOf_ne_inodeKey (p : List Nat) (i : Nat) : statKeyOf i ≠ inodeKey p := by
  simp [inodeKey, statKeyOf, inodeTag, statTag]

theorem inodeKey_ne_nil (p : List Nat) : inodeKey p ≠ [] := by
  simp [inodeKey, inodeTag]

theorem inodeKey_ne_dbInodeKey (p : List Nat) : inodeKey p ≠ dbInodeKey := by
  simp [inodeKey, inodeTag, dbInodeKey]

theorem statKeyOf_ne_dbInodeKey (i : Nat) : statKeyOf i ≠ dbInodeKey := by
  simp [statKeyOf, statTag, dbInodeKey]

theorem ofLe32_lt (b0 b1 b2 b3 : Nat) : ofLe32 b0 b1 b2 b3 < 2 ^ 32 := by
  unfold ofLe32
  omega

theorem ofLe32_le32 (x : Nat) (h : x < 2 ^ 32) :
    ofLe32 (x % 256) (x / 256 % 256) (x / 65536 % 256) (x / 16777216 % 256) = x := by
  unfold ofLe32
  omega

theorem ofBytes_toBytes (s : ish_stat) (hm : s.mode < 2 ^ 32) (hu : s.uid < 2 ^ 32)
    (hg : s.gid < 2 ^ 32) (hr : s.rdev < 2 ^ 32) : ish_stat.ofBytes s.toBytes = some s := by
  cases s
  simp only [ish_stat.toBytes, le32, List.cons_append, List.nil_append, ish_stat.ofBytes]
  simp only at hm hu hg hr
  rw [ofLe32_le32 _ hm, ofLe32_le32 _ hu, ofLe32_le32 _ hg, ofLe32_le32 _ hr]

theorem ofBytes_lt {b : List Nat} {s : ish_stat} (h : ish_stat.ofBytes b = some s) :
    s.mode < 2 ^ 32 ∧ s.uid < 2 ^ 32 ∧ s.gid < 2 ^ 32 ∧ s.rdev < 2 ^ 32 := by
  unfold ish_stat.ofBytes at h
  split at h
  · cases h
    exact ⟨ofLe32_lt _ _ _ _, ofLe32_lt _ _ _ _, ofLe32_lt _ _ _ _, ofLe32_lt _ _ _ _⟩
  · cases h

theorem dword_of_lt {x : Nat} (h : x < 2 ^ 32) : dword x = x := by
  unfold dword
  exact Nat.mod_eq_of_lt h

@[simp] theorem gdbm_store_apply (db : DB) (k : List Nat) (v : List Nat) (k' : List Nat) :
    gdbm_store db (some k) v k' = if k' = k then some v else db k' := rfl

@[simp] theorem gdbm_delete_apply (db : DB) (k : datum) (k' : List Nat) :
    gdbm_delete db k k' = if k' = k.getD [] then none else db k' := rfl

theorem write_path_zero (fs : RealFS H) (w : World H) (p : List Nat)
    (hi : inode_for_path fs w.host p = 0) : write_path fs w p = (0, w) := by
  simp [write_path, hi]

theorem write_path_pos (fs : RealFS H) (w : World H) (p : List Nat) (i : Nat)
    (hi : inode_for_path fs w.host p = i) (hne : i ≠ 0) :
    write_path fs w p = (i, ⟨w.host, gdbm_store w.db (some (inodeKey p)) (decimal i),
      w.trace ++ [Event.store (inodeKey p)]⟩) := by
  simp [write_path, hi, hne, write_meta]

theorem stat_key_zero (fs : RealFS H) (w : World H) (p : List Nat)
    (hi : inode_for_path fs w.host p = 0) : stat_key fs w p = (none, w) := by
  simp [stat_key, write_path_zero fs w p hi]

theorem stat_key_pos (fs : RealFS H) (w : World H) (p : List Nat) (i : Nat)
    (hi : inode_for_path fs w.host p = i) (hne : i ≠ 0) :
    stat_key fs w p = (some (statKeyOf i),
      ⟨w.host, gdbm_store w.db (some (inodeKey p)) (decimal i),
        w.trace ++ [Event.store (inodeKey p)]⟩) := by
  simp [stat_key, write_path_pos fs w p i hi hne, hne]

theorem read_stat_found (fs : RealFS H) (w : World H) (p : List Nat) (i : Nat) (b : List Nat)
    (st : ish_stat) (hi : inode_for_path fs w.host p = i) (hne : i ≠ 0)
    (hrec : w.db (statKeyOf i) = some b) (hst : ish_stat.ofBytes b = some st) :
    read_stat fs w p = some (some st,
      ⟨w.host, gdbm_store w.db (some (inodeKey p)) (decimal i),
        w.trace ++ [Event.store (inodeKey p)] ++ [Event.fetch (statKeyOf i)]⟩) := by
  simp [read_stat, stat_key, write_path, hi, hne, read_meta, write_meta, gdbm_fetch,
    statKeyOf_ne_inodeKey, hrec, hst]

theorem read_stat_absent (fs : RealFS H) (w : World H) (p : List Nat) (i : Nat)
    (hi : inode_for_path fs w.host p = i) (hne : i ≠ 0)
    (hrec : w.db (statKeyOf i) = none) :
    read_stat fs w p = some (none,
      ⟨w.host, gdbm_store w.db (some (inodeKey p)) (decimal i),
        w.trace ++ [Event.store (inodeKey p)] ++ [Event.fetch (statKeyOf i)]⟩) := by
  simp [read_stat, stat_key, write_path, hi, hne, read_meta, write_meta, gdbm_fetch,
    statKeyOf_ne_inodeKey, hrec]

theorem write_stat_found (fs : RealFS H) (w : World H) (p : List Nat) (i : Nat) (st : ish_stat)
    (hi : inode_for_path fs w.host p = i) (hne : i ≠ 0) :
    write_stat fs w p st = some
      ⟨w.host, gdbm_store (gdbm_store w.db (some (inodeKey p)) (decimal i)) (some (statKeyOf i))
          st.toBytes,
        w.trace ++ [Event.store (inodeKey p)] ++ [Event.store (statKeyOf i)]⟩ := by
  simp [write_stat, stat_key, write_path, hi, hne, write_meta]

theorem refresh_inodeKey (fs : RealFS H) (h : H) (db : DB) (p q : List Nat) :
    refresh fs h db p (inodeKey q) =
      if q = p ∧ inode_for_path fs h p ≠ 0 then some (decimal (inode_for_path fs h p))
      else db (inodeKey q) := by
  unfold refresh
  by_cases hz : inode_for_path fs h p = 0
  · simp [hz]
  · by_cases hq : q = p
    · simp [hz, hq]
    · simp [hz, hq, inodeKey_inj]

theorem write_path_effect (fs : RealFS H) (w : World H) (p : List Nat) :
    (write_path fs w p).1 = inode_for_path fs w.host p ∧
    (write_path fs w p).2.host = w.host ∧
    (write_path fs w p).2.db = refresh fs w.host w.db p := by
  by_cases hz : inode_for_path fs w.host p = 0
  · simp [write_path, refresh, hz]
  · simp [write_path, refresh, hz, write_meta]

theorem read_stat_effect (fs : RealFS H) (w w1 : World H) (p : List Nat) (r : Option ish_stat)
    (h : read_stat fs w p = some (r, w1)) :
    w1.host = w.host ∧ w1.db = refresh fs w.host w.db p := by
  obtain ⟨-, h2, h3⟩ := write_path_effect fs w p
  unfold read_stat stat_key read_meta at h
  simp only at h
  split at h
  · simp only [Option.some.injEq, Prod.mk.injEq] at h
    obtain ⟨-, h⟩ := h
    subst h
    split_ifs <;> exact ⟨h2, h3⟩
  · split at h
    · cases h
    · simp only [Option.some.injEq, Prod.mk.injEq] at h
      obtain ⟨-, h⟩ := h
      subst h
      split_ifs <;> exact ⟨h2, h3⟩

theorem write_stat_effect (fs : RealFS H) (w w1 : World H) (p : List Nat) (st : ish_stat)
    (h : write_stat fs w p st = some w1) :
    w1.host = w.host ∧ inode_for_path fs w.host p ≠ 0 ∧
    w1.db = gdbm_store (refresh fs w.host w.db p)
      (some (statKeyOf (inode_for_path fs w.host p))) st.toBytes := by
  by_cases hz : inode_for_path fs w.host p = 0
  · simp [write_stat, stat_key_zero fs w p hz] at h
  · rw [write_stat_found fs w p _ st rfl hz] at h
    cases h
    simp [refresh, hz]

theorem read_stat_found_ex (fs : RealFS H) (w : World H) (p : List Nat) (i : Nat) (b : List Nat)
    (st : ish_stat) (hi : inode_for_path fs w.host p = i) (hne : i ≠ 0)
    (hrec : w.db (statKeyOf i) = some b) (hst : ish_stat.ofBytes b = some st) :
    ∃ w1, read_stat fs w p = some (some st, w1) ∧ w1.host = w.host ∧
      w1.db = gdbm_store w.db (some (inodeKey p)) (decimal i) :=
  ⟨_, read_stat_found fs w p i b st hi hne hrec hst, rfl, rfl⟩

theorem read_stat_absent_ex (fs : RealFS H) (w : World H) (p : List Nat) (i : Nat)
    (hi : inode_for_path fs w.host p = i) (hne : i ≠ 0) (hrec : w.db (statKeyOf i) = none) :
    ∃ w1, read_stat fs w p = some (none, w1) ∧ w1.host = w.host ∧
      w1.db = gdbm_store w.db (some (inodeKey p)) (decimal i) :=
  ⟨_, read_stat_absent fs w p i hi hne hrec, rfl, rfl⟩

theorem write_stat_ex (fs : RealFS H) (w : World H) (p : List Nat) (i : Nat) (st : ish_stat)
    (hi : inode_for_path fs w.host p = i) (hne : i ≠ 0) :
    ∃ w1, write_stat fs w p st = some w1 ∧ w1.host = w.host ∧
      w1.db = gdbm_store (gdbm_store w.db (some (inodeKey p)) (decimal i))
        (some (statKeyOf i)) st.toBytes :=
  ⟨_, write_stat_found fs w p i st hi hne, rfl, rfl⟩

theorem fakefs_stat_found (fs : RealFS H) (w : World H) (p : List Nat) (i : Nat) (b : List Nat)
    (st : ish_stat) (sb0 sb : statbuf) (fl : Bool) (e : Int)
    (hi : inode_for_path fs w.host p = i) (hne : i ≠ 0)
    (hrec : w.db (statKeyOf i) = some b) (hst : ish_stat.ofBytes b = some st)
    (hstat : fs.stat w.host p sb0 fl = (e, sb)) (he : 0 ≤ e) :
    ∃ w2, fakefs_stat fs w p sb0 fl = some (0,
      { sb with mode := st.mode, uid := st.uid, gid := st.gid, rdev := st.rdev }, w2) ∧
      w2.host = w.host := by
  have hnlt : ¬ e < 0 := by omega
  obtain ⟨w1, hr, hh1, -⟩ := read_stat_found_ex fs (lock_db w) p i b st hi hne hrec hst
  have hh : w1.host = w.host := hh1
  refine ⟨unlock_db w1, ?_, hh⟩
  simp only [fakefs_stat, hr, hh, hstat]
  simp [hnlt]

theorem mode_bits (a b : Nat) :
    (a &&& S_IFMT ||| b &&& notS_IFMT) < 2 ^ 32 ∧
    (a &&& S_IFMT ||| b &&& notS_IFMT) &&& S_IFMT = a &&& S_IFMT ∧
    (a &&& S_IFMT ||| b &&& notS_IFMT) &&& notS_IFMT = b &&& notS_IFMT := by
  have hM : S_IFMT &&& notS_IFMT = 0 := by decide
  have hN : notS_IFMT &&& S_IFMT = 0 := by decide
  refine ⟨?_, ?_, ?_⟩
  · apply Nat.or_lt_two_pow
    · exact Nat.and_lt_two_pow _ (by decide)
    · exact Nat.and_lt_two_pow _ (by decide)
  · rw [Nat.and_distrib_right, Nat.and_assoc, Nat.and_self, Nat.and_assoc, hN]
    simp
  · rw [Nat.and_distrib_right, Nat.and_assoc, hM, Nat.and_assoc, Nat.and_self]
    simp

theorem write_then_read (fs : RealFS H) (w1 : World H) (p : List Nat) (i : Nat) (new : ish_stat)
    (hi : inode_for_path fs w1.host p = i) (hne : i ≠ 0)
    (hnew : new.mode < 2 ^ 32 ∧ new.uid < 2 ^ 32 ∧ new.gid < 2 ^ 32 ∧ new.rdev < 2 ^ 32) :
    ∃ w2, write_stat fs w1 p new = some w2 ∧ w2.host = w1.host ∧
      ∃ w3, read_stat fs (unlock_db w2) p = some (some new, w3) ∧ w3.host = w1.host := by
  have hr := read_stat_found fs (unlock_db
      ⟨w1.host, gdbm_store (gdbm_store w1.db (some (inodeKey p)) (decimal i))
        (some (statKeyOf i)) new.toBytes,
        w1.trace ++ [Event.store (inodeKey p)] ++ [Event.store (statKeyOf i)]⟩)
      p i new.toBytes new hi hne (by simp [unlock_db, statKeyOf_ne_inodeKey])
      (ofBytes_toBytes _ hnew.1 hnew.2.1 hnew.2.2.1 hnew.2.2.2)
  exact ⟨_, write_stat_found fs w1 p i new hi hne, rfl, _, hr, rfl⟩

end Lemmas

/-! ## The claims -/

section Claims

variable {H : Type}

/-- C1, as stated, fails: `/f` does not exist, the database holds a record under the inode
the host gives the new file, `open` with `O_CREAT | O_WRONLY`, mode 0644, by user 1000
succeeds, and the following `stat` reports the stored directory mode 0700 and owner 7. -/
theorem open_creat_reports_stale_record :
    inode_for_path unixfs staleWorld.host (bytes "/f") = 0 ∧
    (fakefs_open unixfs 1000 1000 staleWorld (bytes "/f") 0o101 0o644).map Prod.fst
      = some (FdPtr.ok 5) ∧
    ((fakefs_open unixfs 1000 1000 staleWorld (bytes "/f") 0o101 0o644).bind fun r =>
      statOf unixfs r.2 (bytes "/f"))
      = some (0, ⟨S_IFDIR ||| 0o700, 7, 7, 0, 5, 1, 0⟩) := by
  decide

/-- C1, amended: when `p` does not exist, the database holds no record under the inode the
host gives the new file, and `open` with `O_CREAT` succeeds, the following `stat` succeeds
and reports mode `m | S_IFREG`, the caller's uid and gid, and rdev 0. -/
theorem open_creat_then_stat (fs : RealFS H) (uid gid : Nat) (w : World H) (p : List Nat)
    (flags m : Nat) (fd : Int) (h1 : H) (i : Nat) (sb0 sb : statbuf) (fl : Bool) (e : Int)
    (_hnew : inode_for_path fs w.host p = 0)
    (hcreat : flags &&& O_CREAT_ ≠ 0)
    (hopen : fs.open_ w.host p flags 0o666 = (FdPtr.ok fd, h1))
    (hi : inode_for_path fs h1 p = i) (hne : i ≠ 0)
    (hfree : w.db (statKeyOf i) = none)
    (hstat : fs.stat h1 p sb0 fl = (e, sb)) (he : 0 ≤ e)
    (hm : m < 2 ^ 32) (hu : uid < 2 ^ 32) (hg : gid < 2 ^ 32) :
    ∃ w1 w2, fakefs_open fs uid gid w p flags m = some (FdPtr.ok fd, w1) ∧
      fakefs_stat fs w1 p sb0 fl = some (0,
        { sb with mode := m ||| S_IFREG, uid := uid, gid := gid, rdev := 0 }, w2) := by
  have hmode : m ||| S_IFREG < 2 ^ 32 := Nat.or_lt_two_pow hm (by decide)
  obtain ⟨w1, hr, hh1, hd1⟩ := read_stat_absent_ex fs ⟨h1, w.db, w.trace⟩ p i hi hne hfree
  have hi1 : inode_for_path fs (lock_db w1).host p = i := by
    simpa [lock_db, hh1] using hi
  obtain ⟨w2, hw, hh2, hd2⟩ := write_stat_ex fs (lock_db w1) p i
    ⟨m ||| S_IFREG, uid, gid, 0⟩ hi1 hne
  have hh3 : (unlock_db w2).host = h1 := by
    simp [unlock_db, hh2, lock_db, hh1]
  obtain ⟨w3, hs, -⟩ := fakefs_stat_found fs (unlock_db w2) p i _ ⟨m ||| S_IFREG, uid, gid, 0⟩
    sb0 sb fl e (by rw [hh3]; exact hi) hne (by simp [unlock_db, hd2])
    (ofBytes_toBytes _ hmode hu hg (by simp)) (by rw [hh3]; exact hstat) he
  refine ⟨unlock_db w2, w3, ?_, hs⟩
  simp only [fakefs_open, hopen, IS_ERR, hr, dword_of_lt hmode, dword_of_lt hu,
    dword_of_lt hg, hw]
  simp [hcreat]

/-- C1, amended, on the small host: `/f` is created with mode 0644 by user 1000 in an
empty database. -/
theorem open_creat_then_stat_witness :
    ∃ w1 w2, fakefs_open unixfs 1000 1000 emptyWorld (bytes "/f") 0o101 0o644
        = some (FdPtr.ok 5, w1) ∧
      fakefs_stat unixfs w1 (bytes "/f") statbuf.zero false
        = some (0, ⟨0o644 ||| S_IFREG, 1000, 1000, 0, 5, 1, 0⟩, w2) :=
  open_creat_then_stat unixfs 1000 1000 emptyWorld (bytes "/f") 0o101 0o644 5
    (UHost.create emptyWorld.host (bytes "/f") (Node.reg [])) 5 statbuf.zero
    ⟨S_IFREG ||| 0o644, 501, 20, 0, 5, 1, 0⟩ false 0
    (by decide) (by decide) (by decide) (by decide) (by decide) (by decide) (by decide)
    (by decide) (by decide) (by decide) (by decide)

/-- C2, as stated, fails: `rmdir` of the directory `/a`, which has an entry, fails on the
host with `ENOTEMPTY`, `fakefs_rmdir` returns that error, and the database has gained
the record `inode /a`. -/
theorem rmdir_failure_adds_inode_record :
    (unixfs.rmdir dirWorld.host (bytes "/a")).1 = -39 ∧
    (fakefs_rmdir unixfs dirWorld (bytes "/a")).1 = -39 ∧
    dirWorld.db (inodeKey (bytes "/a")) = none ∧
    (fakefs_rmdir unixfs dirWorld (bytes "/a")).2.db (inodeKey (bytes "/a"))
      = some (decimal 3) := by
  decide

/-- C2, amended: when the host call fails, each of the five operations returns that error;
`fakefs_link` and `fakefs_mkdir` leave the database as it was, and `fakefs_unlink`,
`fakefs_rmdir` and `fakefs_rename` change at most the record `inode <path>` of the path
whose stat key they compute (the destination, for rename), which then holds the inode the
path has on the host. -/
theorem failed_host_call_keeps_records (fs : RealFS H) (uid gid : Nat) (w : World H)
    (src dst path : List Nat) (mode : Nat) (e : Int) (h1 : H) (he : e < 0) :
    (fs.link w.host src dst = (e, h1) →
      (fakefs_link fs w src dst).1 = e ∧ (fakefs_link fs w src dst).2.db = w.db) ∧
    (fs.mkdir w.host path 0o777 = (e, h1) →
      ∃ w', fakefs_mkdir fs uid gid w path mode = some (e, w') ∧ w'.db = w.db) ∧
    (fs.unlink w.host path = (e, h1) →
      (fakefs_unlink fs w path).1 = e ∧
      (fakefs_unlink fs w path).2.db = refresh fs w.host w.db path) ∧
    (fs.rmdir w.host path = (e, h1) →
      (fakefs_rmdir fs w path).1 = e ∧
      (fakefs_rmdir fs w path).2.db = refresh fs w.host w.db path) ∧
    (fs.rename w.host src dst = (e, h1) →
      (fakefs_rename fs w src dst).1 = e ∧
      (fakefs_rename fs w src dst).2.db = refresh fs w.host w.db dst) ∧
    (∀ q k, k ≠ inodeKey q → refresh fs w.host w.db q k = w.db k) := by
  refine ⟨?_, ?_, ?_, ?_, ?_, ?_⟩
  · intro h
    simp [fakefs_link, lock_db, unlock_db, h, he]
  · intro h
    simp [fakefs_mkdir, lock_db, unlock_db, h, he]
  · intro h
    by_cases hz : inode_for_path fs w.host path = 0
    · simp [fakefs_unlink, stat_key, write_path, lock_db, unlock_db, refresh, hz, h, he]
    · simp [fakefs_unlink, stat_key, write_path, write_meta, lock_db, unlock_db, refresh,
        hz, h, he]
  · intro h
    by_cases hz : inode_for_path fs w.host path = 0
    · simp [fakefs_rmdir, stat_key, write_path, lock_db, unlock_db, refresh, hz, h, he]
    · simp [fakefs_rmdir, stat_key, write_path, write_meta, lock_db, unlock_db, refresh,
        hz, h, he]
  · intro h
    by_cases hz : inode_for_path fs w.host dst = 0
    · simp [fakefs_rename, stat_key, write_path, lock_db, unlock_db, refresh, hz, h, he]
    · simp [fakefs_rename, stat_key, write_path, write_meta, lock_db, unlock_db, refresh,
        hz, h, he]
  · intro q k hk
    unfold refresh
    split_ifs
    · rfl
    · simp [hk]

/-- C2, amended, on the small host: the five host calls fail on the directory `/a`. -/
theorem failed_host_call_keeps_records_witness :
    (fakefs_link unixfs dirWorld (bytes "/a") (bytes "/a/f")).1 = -1 ∧
    (fakefs_link unixfs dirWorld (bytes "/a") (bytes "/a/f")).2.db = dirWorld.db ∧
    (fakefs_unlink unixfs dirWorld (bytes "/a")).1 = -21 ∧
    (fakefs_unlink unixfs dirWorld (bytes "/a")).2.db = refresh unixfs dirWorld.host dirWorld.db (bytes "/a") ∧
    (fakefs_rmdir unixfs dirWorld (bytes "/a")).1 = -39 ∧
    (fakefs_rmdir unixfs dirWorld (bytes "/a")).2.db = refresh unixfs dirWorld.host dirWorld.db (bytes "/a") ∧
    (fakefs_rename unixfs dirWorld (bytes "/a") (bytes "/a/f")).1 = -22 ∧
    (fakefs_rename unixfs dirWorld (bytes "/a") (bytes "/a/f")).2.db
      = refresh unixfs dirWorld.host dirWorld.db (bytes "/a/f") ∧
    (∃ w', fakefs_mkdir unixfs 1000 1000 dirWorld (bytes "/a") 0o755 = some (-17, w') ∧
      w'.db = dirWorld.db) :=
  ⟨((failed_host_call_keeps_records unixfs 0 0 dirWorld (bytes "/a") (bytes "/a/f")
      (bytes "/a") 0 (-1) dirWorld.host (by decide)).1 (by decide)).1,
   ((failed_host_call_keeps_records unixfs 0 0 dirWorld (bytes "/a") (bytes "/a/f")
      (bytes "/a") 0 (-1) dirWorld.host (by decide)).1 (by decide)).2,
   ((failed_host_call_keeps_records unixfs 0 0 dirWorld (bytes "/a") (bytes "/a/f")
      (bytes "/a") 0 (-21) dirWorld.host (by decide)).2.2.1 (by decide)).1,
   ((failed_host_call_keeps_records unixfs 0 0 dirWorld (bytes "/a") (bytes "/a/f")
      (bytes "/a") 0 (-21) dirWorld.host (by decide)).2.2.1 (by decide)).2,
   ((failed_host_call_keeps_records unixfs 0 0 dirWorld (bytes "/a") (bytes "/a/f")
      (bytes "/a") 0 (-39) dirWorld.host (by decide)).2.2.2.1 (by decide)).1,
   ((failed_host_call_keeps_records unixfs 0 0 dirWorld (bytes "/a") (bytes "/a/f")
      (bytes "/a") 0 (-39) dirWorld.host (by decide)).2.2.2.1 (by decide)).2,
   ((failed_host_call_keeps_records unixfs 0 0 dirWorld (bytes "/a") (bytes "/a/f")
      (bytes "/a") 0 (-22) dirWorld.host (by decide)).2.2.2.2.1 (by decide)).1,
   ((failed_host_call_keeps_records unixfs 0 0 dirWorld (bytes "/a") (bytes "/a/f")
      (bytes "/a") 0 (-22) dirWorld.host (by decide)).2.2.2.2.1 (by decide)).2,
   (failed_host_call_keeps_records unixfs 1000 1000 dirWorld (bytes "/a") (bytes "/a/f")
      (bytes "/a") 0o755 (-17) dirWorld.host (by decide)).2.1 (by decide)⟩

/-- C4, as stated, fails: `/l` has inode 6 with link count 1, but it is a symbolic link to
a missing file, so the `openat` of the probe fails; `unlink` succeeds, the path is gone
from the host, and the record `stat 6` is still in the database. -/
theorem unlink_of_dangling_link_keeps_stat :
    inode_for_path unixfs danglingWorld.host (bytes "/l") = 6 ∧
    UHost.nlinkOf danglingWorld.host 6 = 1 ∧
    unixfs.openat_rdonly danglingWorld.host (bytes "/l") = -2 ∧
    (fakefs_unlink unixfs danglingWorld (bytes "/l")).1 = 0 ∧
    inode_for_path unixfs (fakefs_unlink unixfs danglingWorld (bytes "/l")).2.host (bytes "/l")
      = 0 ∧
    (fakefs_unlink unixfs danglingWorld (bytes "/l")).2.db (statKeyOf 6)
      = some (⟨S_IFLNK ||| 0o777, 1000, 1000, 0⟩ : ish_stat).toBytes ∧
    (fakefs_unlink unixfs danglingWorld (bytes "/l")).2.db (inodeKey (bytes "/l")) = none := by
  decide

/-- C4, amended: when `p` has inode `i`, the probe before the lock (`openat` with
`O_RDONLY`, then `fstat`) sees link count 1, and `unlink` succeeds, the database holds
neither the record `stat <i>` nor the record `inode <p>` afterwards. -/
theorem unlink_last_link_deletes_records (fs : RealFS H) (w : World H) (p : List Nat) (i : Nat)
    (hi : inode_for_path fs w.host p = i) (hne : i ≠ 0)
    (hfd : 0 ≤ fs.openat_rdonly w.host p)
    (hprobe : fs.fstat_nlink w.host (fs.openat_rdonly w.host p) = some 1)
    (hok : 0 ≤ (fs.unlink w.host p).1) :
    (fakefs_unlink fs w p).1 = 0 ∧
    (fakefs_unlink fs w p).2.db (statKeyOf i) = none ∧
    (fakefs_unlink fs w p).2.db (inodeKey p) = none := by
  have hnlt : ¬ (fs.unlink w.host p).1 < 0 := by omega
  have hk := stat_key_pos fs (lock_db w) p i hi hne
  have hnlt2 : ¬ (fs.unlink (lock_db w).host p).1 < 0 := hnlt
  simp only [fakefs_unlink, hk, hnlt2, hfd, hprobe]
  simp [delete_path, delete_meta, unlock_db, statKeyOf_ne_inodeKey]

/-- C4, amended, on the small host: `/f` is a readable file with one name. -/
theorem unlink_last_link_deletes_records_witness :
    (fakefs_unlink unixfs fileWorld (bytes "/f")).1 = 0 ∧
    (fakefs_unlink unixfs fileWorld (bytes "/f")).2.db (statKeyOf 5) = none ∧
    (fakefs_unlink unixfs fileWorld (bytes "/f")).2.db (inodeKey (bytes "/f")) = none :=
  unlink_last_link_deletes_records unixfs fileWorld (bytes "/f") 5
    (by decide) (by decide) (by decide) (by decide) (by decide)

/-- C5: a `uid`, `gid` or `mode` request on a path with a stat record returns 0 and leaves
the record with that one field replaced. -/
theorem setattr_replaces_one_field (fs : RealFS H) (w : World H) (p : List Nat) (i : Nat)
    (b : List Nat) (old : ish_stat) (v : Nat)
    (hi : inode_for_path fs w.host p = i) (hne : i ≠ 0)
    (hrec : w.db (statKeyOf i) = some b) (hold : ish_stat.ofBytes b = some old)
    (hv : v < 2 ^ 32) :
    (∃ w2 w3, fakefs_setattr fs w p (attr.uid v) = some (0, w2) ∧
      read_stat fs w2 p = some (some { old with uid := v }, w3)) ∧
    (∃ w2 w3, fakefs_setattr fs w p (attr.gid v) = some (0, w2) ∧
      read_stat fs w2 p = some (some { old with gid := v }, w3)) ∧
    (∃ w2 w3 new, fakefs_setattr fs w p (attr.mode v) = some (0, w2) ∧
      read_stat fs w2 p = some (some new, w3) ∧
      new = { old with mode := (old.mode &&& S_IFMT) ||| (v &&& notS_IFMT) } ∧
      new.mode &&& S_IFMT = old.mode &&& S_IFMT ∧
      new.mode &&& notS_IFMT = v &&& notS_IFMT) := by
  obtain ⟨hm, hu, hg, hr⟩ := ofBytes_lt hold
  have h1 := read_stat_found fs (lock_db w) p i b old hi hne hrec hold
  generalize hw1 : (⟨(lock_db w).host, gdbm_store (lock_db w).db (some (inodeKey p)) (decimal i),
    (lock_db w).trace ++ [Event.store (inodeKey p)] ++ [Event.fetch (statKeyOf i)]⟩ : World H)
    = w1 at h1
  have hi1 : inode_for_path fs w1.host p = i := by
    rw [← hw1]
    exact hi
  obtain ⟨hb1, hb2, hb3⟩ := mode_bits old.mode v
  refine ⟨?_, ?_, ?_⟩
  · obtain ⟨w2, hw, -, w3, hr3, -⟩ := write_then_read fs w1 p i { old with uid := v } hi1 hne
      ⟨hm, hv, hg, hr⟩
    refine ⟨unlock_db w2, w3, ?_, hr3⟩
    simp only [fakefs_setattr, h1, dword_of_lt hv, hw, Option.map_some']
  · obtain ⟨w2, hw, -, w3, hr3, -⟩ := write_then_read fs w1 p i { old with gid := v } hi1 hne
      ⟨hm, hu, hv, hr⟩
    refine ⟨unlock_db w2, w3, ?_, hr3⟩
    simp only [fakefs_setattr, h1, dword_of_lt hv, hw, Option.map_some']
  · obtain ⟨w2, hw, -, w3, hr3, -⟩ := write_then_read fs w1 p i
      { old with mode := (old.mode &&& S_IFMT) ||| (v &&& notS_IFMT) } hi1 hne ⟨hb1, hu, hg, hr⟩
    refine ⟨unlock_db w2, w3, _, ?_, hr3, rfl, hb2, hb3⟩
    simp only [fakefs_setattr, h1, dword_of_lt hb1, hw, Option.map_some']


/-- C5 on the small host: `/f` has the record (0644, 1000, 1000, 0) and the value is 42. -/
theorem setattr_replaces_one_field_witness :
    (∃ w2 w3, fakefs_setattr unixfs fileWorld (bytes "/f") (attr.uid 42) = some (0, w2) ∧
      read_stat unixfs w2 (bytes "/f") = some (some ⟨S_IFREG ||| 0o644, 42, 1000, 0⟩, w3)) ∧
    (∃ w2 w3, fakefs_setattr unixfs fileWorld (bytes "/f") (attr.gid 42) = some (0, w2) ∧
      read_stat unixfs w2 (bytes "/f") = some (some ⟨S_IFREG ||| 0o644, 1000, 42, 0⟩, w3)) ∧
    (∃ w2 w3 new, fakefs_setattr unixfs fileWorld (bytes "/f") (attr.mode 42) = some (0, w2) ∧
      read_stat unixfs w2 (bytes "/f") = some (some new, w3) ∧
      new = ⟨(S_IFREG ||| 0o644) &&& S_IFMT ||| 42 &&& notS_IFMT, 1000, 1000, 0⟩ ∧
      new.mode &&& S_IFMT = (S_IFREG ||| 0o644) &&& S_IFMT ∧
      new.mode &&& notS_IFMT = 42 &&& notS_IFMT) :=
  setattr_replaces_one_field unixfs fileWorld (bytes "/f") 5
    (⟨S_IFREG ||| 0o644, 1000, 1000, 0⟩ : ish_stat).toBytes ⟨S_IFREG ||| 0o644, 1000, 1000, 0⟩ 42
    (by decide) (by decide) (by decide) (by decide) (by decide)

theorem splitBasename_data (dir : List Nat) :
    splitBasename (dir ++ 47 :: dataName) = some (dir ++ [47], dataName) := by
  simp [splitBasename, dataName, List.takeWhile, List.dropWhile]

/-- When `atol` of the `db inode` sentinel is the current inode of the database file,
mount returns 0 without a call of `fakefs_rebuild`, writes the key `db inode` only, with
the decimal inode and one NUL byte as its value, and leaves every `stat` and `inode`
record as it was. -/
theorem mount_matching_sentinel (fs : RealFS H)
    (fakefs_rebuild : World H → List Nat → Int × World H) (dir : List Nat) (w : World H)
    (db : DB) (h1 : H) (e : Int) (st_ino : Nat) (v : List Nat)
    (hopen : fs.gdbm_open w.host (dir ++ [47] ++ metaName) = some db)
    (hmount : fs.mount w.host = (e, h1)) (he : 0 ≤ e)
    (hino : fs.db_fstat_ino h1 = some st_ino)
    (hsent : db dbInodeKey = some v) (heq : atol v = (st_ino : Int)) :
    ∃ w', fakefs_mount fs fakefs_rebuild (dir ++ 47 :: dataName) w = some (0, w') ∧
      w'.host = h1 ∧
      w'.trace = w.trace ++ [Event.fetch dbInodeKey, Event.store dbInodeKey] ∧
      w'.db = gdbm_store db (some dbInodeKey) (decimal st_ino ++ [0]) ∧
      w'.db dbInodeKey = some (decimal st_ino ++ [0]) ∧
      (∀ i, w'.db (statKeyOf i) = db (statKeyOf i)) ∧
      (∀ p, w'.db (inodeKey p) = db (inodeKey p)) := by
  have hne : ¬ e < 0 := by omega
  have hopen2 : fs.gdbm_open w.host (dir ++ 47 :: metaName) = some db := by
    simpa using hopen
  refine ⟨⟨h1, gdbm_store db (some dbInodeKey) (decimal st_ino ++ [0]),
    w.trace ++ [Event.fetch dbInodeKey, Event.store dbInodeKey]⟩, ?_, rfl, rfl, rfl, ?_, ?_, ?_⟩
  · simp [fakefs_mount, splitBasename_data, hopen2, hmount, hne, hino, gdbm_fetch, hsent, heq]
  · simp
  · intro i
    simp [statKeyOf_ne_dbInodeKey]
  · intro p
    simp [inodeKey_ne_dbInodeKey]

/-- On the small host: the database file has inode 99 and the sentinel holds `99`. -/
theorem mount_matching_sentinel_witness :
    ∃ w', fakefs_mount unixfs (fun w _ => (-5, w)) (bytes "/fs" ++ 47 :: dataName)
        unmountedWorld = some (0, w') ∧
      w'.host = unmountedWorld.host ∧
      w'.trace = unmountedWorld.trace ++ [Event.fetch dbInodeKey, Event.store dbInodeKey] ∧
      w'.db = gdbm_store (dbOf mountedDisk) (some dbInodeKey) (decimal 99 ++ [0]) ∧
      w'.db dbInodeKey = some (decimal 99 ++ [0]) ∧
      (∀ i, w'.db (statKeyOf i) = dbOf mountedDisk (statKeyOf i)) ∧
      (∀ p, w'.db (inodeKey p) = dbOf mountedDisk (inodeKey p)) :=
  mount_matching_sentinel unixfs (fun w _ => (-5, w)) (bytes "/fs") unmountedWorld
    (dbOf mountedDisk) unmountedWorld.host 0 99 (decimal 99 ++ [0])
    rfl (by decide) (by decide) (by decide) (by decide) (by decide)

/-- C7 fails on the code: the database file has inode `2 ^ 63 + 5` and the sentinel holds
the decimal digits of that inode and a NUL, as mount writes them with `%lu`; `atol` gives
`LONG_MAX`, the test against `st_ino` finds them different, and mount calls
`fakefs_rebuild` before it stores the sentinel; when the rebuild fails, mount returns its
error. -/
theorem mount_rebuilds_for_large_inode :
    unixfs.db_fstat_ino bigInodeWorld.host = some (2 ^ 63 + 5) ∧
    (unixfs.gdbm_open bigInodeWorld.host (bytes "/fs/meta.db")).map (fun db => db dbInodeKey)
      = some (some (decimal (2 ^ 63 + 5) ++ [0])) ∧
    atol (decimal (2 ^ 63 + 5) ++ [0]) = LONG_MAX ∧
    (fakefs_mount unixfs (fun w _ => (0, w)) (bytes "/fs/data") bigInodeWorld).map
        (fun r => (r.1, r.2.trace))
      = some (0, [Event.fetch dbInodeKey, Event.rebuild, Event.store dbInodeKey]) ∧
    (fakefs_mount unixfs (fun w _ => (-5, w)) (bytes "/fs/data") bigInodeWorld).map Prod.fst
      = some (-5) := by
  decide

theorem linkWorld_I1 : I1 unixfs linkWorld := by
  intro q hq
  simp only [inode_for_path, unixfs, UHost.ino, linkWorld, assoc] at hq ⊢
  split_ifs at hq ⊢ with h1 h2 h3
  · decide
  · decide
  · decide
  · exact absurd rfl hq

/-- C8 fails on the code: I1 holds, `/d` and `/d2` are two names of the file with inode 2,
and the rename of `/s` to `/d` succeeds and deletes the record `stat 2`; `/d2` still
exists with inode 2, has no stat record, and `stat` of it returns `ENOENT`. -/
theorem rename_over_hard_link_breaks_I1 :
    I1 unixfs linkWorld ∧
    (fakefs_rename unixfs linkWorld (bytes "/s") (bytes "/d")).1 = 0 ∧
    inode_for_path unixfs (fakefs_rename unixfs linkWorld (bytes "/s") (bytes "/d")).2.host
      (bytes "/d2") = 2 ∧
    (fakefs_rename unixfs linkWorld (bytes "/s") (bytes "/d")).2.db (statKeyOf 2) = none ∧
    statOf unixfs (fakefs_rename unixfs linkWorld (bytes "/s") (bytes "/d")).2 (bytes "/d2")
      = some (_ENOENT, statbuf.zero) ∧
    ¬ I1 unixfs (fakefs_rename unixfs linkWorld (bytes "/s") (bytes "/d")).2 := by
  refine ⟨linkWorld_I1, by decide, by decide, by decide, by decide, ?_⟩
  intro h
  have h2 := h (bytes "/d2") (by decide)
  revert h2
  decide

theorem siblings_hold_lock (fs : RealFS H) (w : World H) (s d : List Nat) (hw : w.trace = []) :
    lockedThroughout false (fakefs_link fs w s d).2.trace = true ∧
    lockedThroughout false (fakefs_unlink fs w s).2.trace = true ∧
    lockedThroughout false (fakefs_rmdir fs w s).2.trace = true ∧
    lockedThroughout false (fakefs_rename fs w s d).2.trace = true := by
  refine ⟨?_, ?_, ?_, ?_⟩
  · simp only [fakefs_link, lock_db, unlock_db, write_path, write_meta, hw]
    split_ifs <;> simp [lockedThroughout]
  · simp only [fakefs_unlink, lock_db, unlock_db, stat_key, write_path, write_meta,
      delete_path, delete_meta, hw]
    split_ifs <;> simp [lockedThroughout]
  · simp only [fakefs_rmdir, lock_db, unlock_db, stat_key, write_path, write_meta,
      delete_path, delete_meta, hw]
    split_ifs <;> simp [lockedThroughout]
  · simp only [fakefs_rename, lock_db, unlock_db, stat_key, write_path, write_meta,
      delete_path, delete_meta, hw]
    split_ifs <;> simp [lockedThroughout]

/-- C9 fails on the code: `fakefs_open` with `O_CREAT` of the new file `/f` stores the
record `inode /f` and fetches `stat 5` through `read_stat` before it takes the lock, which
it holds only around `write_stat`. -/
theorem open_reads_store_without_lock :
    (fakefs_open unixfs 1000 1000 emptyWorld (bytes "/f") 0o101 0o644).map
        (fun r => r.2.trace)
      = some [Event.store (inodeKey (bytes "/f")), Event.fetch (statKeyOf 5), Event.lock,
          Event.store (inodeKey (bytes "/f")), Event.store (statKeyOf 5), Event.unlock] ∧
    (fakefs_open unixfs 1000 1000 emptyWorld (bytes "/f") 0o101 0o644).map
        (fun r => lockedThroughout false r.2.trace)
      = some false := by
  decide

theorem I2_of_step (fs : RealFS H) (w w' : World H) (T K : List Nat → Prop) (hinv : I2 fs w)
    (hframe : ∀ q, T q ∨ inode_for_path fs w'.host q = inode_for_path fs w.host q ∨
      inode_for_path fs w'.host q = 0 ∨ (¬ K q ∧ w.db (inodeKey q) = none))
    (hstep : ∀ q v, w'.db (inodeKey q) = some v →
      (inode_for_path fs w'.host q = 0 ∨ v = decimal (inode_for_path fs w'.host q)) ∨
      (¬ T q ∧ (w.db (inodeKey q) = some v ∨
        (K q ∧ v = decimal (inode_for_path fs w.host q))))) :
    I2 fs w' := by
  intro q v hv
  rcases hstep q v hv with h | ⟨hT, h⟩
  · exact h
  · rcases hframe q with hf | hf | hf | ⟨hK, hnone⟩
    · exact absurd hf hT
    · rw [hf]
      rcases h with h | h
      · exact hinv q v h
      · exact Or.inr h.2
    · exact Or.inl hf
    · rcases h with h | h
      · rw [hnone] at h
        cases h
      · exact absurd h.1 hK

theorem link_preserves_I2 (fs : RealFS H) (w : World H) (s d : List Nat) (hinv : I2 fs w)
    (hframe : ∀ q, (0 ≤ (fakefs_link fs w s d).1 ∧ q = d) ∨
      inode_for_path fs (fakefs_link fs w s d).2.host q = inode_for_path fs w.host q ∨
      inode_for_path fs (fakefs_link fs w s d).2.host q = 0 ∨
      w.db (inodeKey q) = none) :
    I2 fs (fakefs_link fs w s d).2 := by
  apply I2_of_step fs w _ _ (fun _ => False) hinv
    (fun q => (hframe q).imp_right (Or.imp_right (Or.imp_right fun h => ⟨not_false, h⟩)))
  intro q v hv
  revert hv
  simp only [fakefs_link, lock_db, unlock_db, write_path, write_meta]
  split_ifs with h1 h2 <;> simp [inodeKey_inj] <;> intro hv <;> by_cases hq : q = d <;>
    simp_all

theorem unlink_preserves_I2 (fs : RealFS H) (w : World H) (p : List Nat) (hinv : I2 fs w)
    (hframe : ∀ q, False ∨
      inode_for_path fs (fakefs_unlink fs w p).2.host q = inode_for_path fs w.host q ∨
      inode_for_path fs (fakefs_unlink fs w p).2.host q = 0 ∨
      (¬ q = p ∧ w.db (inodeKey q) = none)) :
    I2 fs (fakefs_unlink fs w p).2 := by
  apply I2_of_step fs w _ (fun _ => False) (fun q => q = p) hinv hframe
  intro q v hv
  revert hv
  simp only [fakefs_unlink, lock_db, unlock_db, stat_key, write_path, write_meta, delete_path,
    delete_meta]
  split_ifs <;>
    simp [inodeKey_inj, inodeKey_ne_statKeyOf, inodeKey_ne_nil, Option.getD] <;>
    intro hv <;> by_cases hq : q = p <;> simp_all

theorem rmdir_preserves_I2 (fs : RealFS H) (w : World H) (p : List Nat) (hinv : I2 fs w)
    (hframe : ∀ q, False ∨
      inode_for_path fs (fakefs_rmdir fs w p).2.host q = inode_for_path fs w.host q ∨
      inode_for_path fs (fakefs_rmdir fs w p).2.host q = 0 ∨
      (¬ q = p ∧ w.db (inodeKey q) = none)) :
    I2 fs (fakefs_rmdir fs w p).2 := by
  apply I2_of_step fs w _ (fun _ => False) (fun q => q = p) hinv hframe
  intro q v hv
  revert hv
  simp only [fakefs_rmdir, lock_db, unlock_db, stat_key, write_path, write_meta, delete_path,
    delete_meta]
  split_ifs <;>
    simp [inodeKey_inj, inodeKey_ne_statKeyOf, inodeKey_ne_nil, Option.getD] <;>
    intro hv <;> by_cases hq : q = p <;> simp_all

theorem rename_preserves_I2 (fs : RealFS H) (w : World H) (s d : List Nat) (hinv : I2 fs w)
    (hframe : ∀ q, (0 ≤ (fakefs_rename fs w s d).1 ∧ q = d) ∨
      inode_for_path fs (fakefs_rename fs w s d).2.host q = inode_for_path fs w.host q ∨
      inode_for_path fs (fakefs_rename fs w s d).2.host q = 0 ∨
      (¬ q = d ∧ w.db (inodeKey q) = none)) :
    I2 fs (fakefs_rename fs w s d).2 := by
  apply I2_of_step fs w _ (fun q => 0 ≤ (fakefs_rename fs w s d).1 ∧ q = d) (fun q => q = d)
    hinv hframe
  intro q v hv
  revert hv
  simp only [fakefs_rename, lock_db, unlock_db, stat_key, write_path, write_meta, delete_path,
    delete_meta]
  split_ifs <;>
    simp [inodeKey_inj, inodeKey_ne_statKeyOf, inodeKey_ne_nil, Option.getD] <;>
    intro hv <;> by_cases hq : q = d <;> by_cases hq2 : q = s <;> simp_all

theorem I2_fresh_target (fs : RealFS H) (w w' : World H) (p : List Nat) (db1 : DB)
    (hinv : I2 fs w)
    (hframe : ∀ q, q = p ∨ inode_for_path fs w'.host q = inode_for_path fs w.host q ∨
      inode_for_path fs w'.host q = 0 ∨ w.db (inodeKey q) = none)
    (hdb1 : ∀ q, db1 (inodeKey q) = w.db (inodeKey q) ∨
      (q = p ∧ db1 (inodeKey q) = some (decimal (inode_for_path fs w'.host p))))
    (hdb : ∀ q, w'.db (inodeKey q) = refresh fs w'.host db1 p (inodeKey q)) :
    I2 fs w' := by
  apply I2_of_step fs w w' (fun q => q = p) (fun _ => False) hinv
    (fun q => (hframe q).imp_right (Or.imp_right (Or.imp_right fun h => ⟨not_false, h⟩)))
  intro q v hv
  rw [hdb q, refresh_inodeKey] at hv
  by_cases hq : q = p
  · subst hq
    by_cases hz : inode_for_path fs w'.host q = 0
    · exact Or.inl (Or.inl hz)
    · simp [hz] at hv
      exact Or.inl (Or.inr hv.symm)
  · simp [hq] at hv
    rcases hdb1 q with h | ⟨h, -⟩
    · rw [h] at hv
      exact Or.inr ⟨hq, Or.inl hv⟩
    · exact absurd h hq

theorem I2_same_db (fs : RealFS H) (w w' : World H) (T : List Nat → Prop) (hinv : I2 fs w)
    (hframe : ∀ q, T q ∨ inode_for_path fs w'.host q = inode_for_path fs w.host q ∨
      inode_for_path fs w'.host q = 0 ∨ w.db (inodeKey q) = none)
    (hT : ∀ q, ¬ T q) (hdb : w'.db = w.db) : I2 fs w' := by
  apply I2_of_step fs w w' T (fun _ => False) hinv
    (fun q => (hframe q).imp_right (Or.imp_right (Or.imp_right fun h => ⟨not_false, h⟩)))
  intro q v hv
  rw [hdb] at hv
  exact Or.inr ⟨hT q, Or.inl hv⟩

theorem mkdir_preserves_I2 (fs : RealFS H) (uid gid : Nat) (w w' : World H) (p : List Nat)
    (mode : Nat) (r : Int) (hinv : I2 fs w)
    (hrun : fakefs_mkdir fs uid gid w p mode = some (r, w'))
    (hframe : ∀ q, (0 ≤ r ∧ q = p) ∨
      inode_for_path fs w'.host q = inode_for_path fs w.host q ∨
      inode_for_path fs w'.host q = 0 ∨ w.db (inodeKey q) = none) :
    I2 fs w' := by
  unfold fakefs_mkdir at hrun
  simp only at hrun
  split_ifs at hrun with hlt
  · simp only [Option.some.injEq, Prod.mk.injEq] at hrun
    obtain ⟨hr, hw⟩ := hrun
    subst hw
    have hnr : ¬ 0 ≤ r := by omega
    exact I2_same_db fs w _ _ hinv hframe (fun q h => hnr h.1) rfl
  · split at hrun
    · cases hrun
    · rename_i w3 hw3
      simp only [Option.some.injEq, Prod.mk.injEq] at hrun
      obtain ⟨hr, hw⟩ := hrun
      subst hw
      obtain ⟨hh, -, hd⟩ := write_stat_effect fs _ w3 p _ hw3
      apply I2_fresh_target fs w _ p w.db hinv
      · intro q
        exact (hframe q).imp_left fun h => h.2
      · intro q
        exact Or.inl rfl
      · intro q
        simp only [unlock_db, hd, gdbm_store_apply, inodeKey_ne_statKeyOf, if_false, hh]
        rfl

theorem symlink_preserves_I2 (fs : RealFS H) (uid gid : Nat) (w w' : World H)
    (t l : List Nat) (r : Int) (herr : ∀ e, e < 0 → fs.errno_map e < 0) (hinv : I2 fs w)
    (hrun : fakefs_symlink fs uid gid w t l = some (r, w'))
    (hframe : ∀ q, (0 ≤ r ∧ q = l) ∨
      inode_for_path fs w'.host q = inode_for_path fs w.host q ∨
      inode_for_path fs w'.host q = 0 ∨ w.db (inodeKey q) = none) :
    I2 fs w' := by
  unfold fakefs_symlink at hrun
  simp only at hrun
  split_ifs at hrun with hlt hlt2
  · simp only [Option.some.injEq, Prod.mk.injEq] at hrun
    obtain ⟨hr, hw⟩ := hrun
    subst hw
    have hneg := herr _ hlt
    exact I2_same_db fs w _ _ hinv hframe (fun q h => by omega) rfl
  · simp only [Option.some.injEq, Prod.mk.injEq] at hrun
    obtain ⟨hr, hw⟩ := hrun
    subst hw
    have hneg := herr _ hlt2
    exact I2_same_db fs w _ _ hinv hframe (fun q h => by omega) rfl
  · split at hrun
    · cases hrun
    · rename_i w4 hw4
      simp only [Option.some.injEq, Prod.mk.injEq] at hrun
      obtain ⟨hr, hw⟩ := hrun
      subst hw
      obtain ⟨hh, -, hd⟩ := write_stat_effect fs _ w4 l _ hw4
      apply I2_fresh_target fs w _ l w.db hinv
      · intro q
        exact (hframe q).imp_left fun h => h.2
      · intro q
        exact Or.inl rfl
      · intro q
        simp only [unlock_db, hd, gdbm_store_apply, inodeKey_ne_statKeyOf, if_false, hh]
        rfl

theorem open_preserves_I2 (fs : RealFS H) (uid gid : Nat) (w w' : World H) (p : List Nat)
    (flags mode : Nat) (r : FdPtr) (hinv : I2 fs w)
    (hrun : fakefs_open fs uid gid w p flags mode = some (r, w'))
    (hframe : ∀ q, (IS_ERR r = false ∧ q = p ∧ flags &&& O_CREAT_ ≠ 0) ∨
      inode_for_path fs w'.host q = inode_for_path fs w.host q ∨
      inode_for_path fs w'.host q = 0 ∨ w.db (inodeKey q) = none) :
    I2 fs w' := by
  unfold fakefs_open at hrun
  simp only at hrun
  split_ifs at hrun with herr hcreat
  · simp only [Option.some.injEq, Prod.mk.injEq] at hrun
    obtain ⟨hr, hw⟩ := hrun
    subst hw
    subst hr
    exact I2_same_db fs w _ _ hinv hframe (fun q h => by simp [herr] at h) rfl
  · split at hrun
    · cases hrun
    · rename_i st w2 hw2
      simp only [Option.some.injEq, Prod.mk.injEq] at hrun
      obtain ⟨hr, hw⟩ := hrun
      subst hw
      obtain ⟨hh, hd⟩ := read_stat_effect fs _ w2 p _ hw2
      apply I2_fresh_target fs w _ p w.db hinv
      · intro q
        exact (hframe q).imp_left fun h => h.2.1
      · intro q
        exact Or.inl rfl
      · intro q
        rw [hd, hh]
    · rename_i w2 hw2
      obtain ⟨hh, hd⟩ := read_stat_effect fs _ w2 p _ hw2
      split at hrun
      · cases hrun
      · rename_i w3 hw3
        simp only [Option.some.injEq, Prod.mk.injEq] at hrun
        obtain ⟨hr, hw⟩ := hrun
        subst hw
        obtain ⟨hh3, -, hd3⟩ := write_stat_effect fs _ w3 p _ hw3
        have hhost : (unlock_db w3).host = (fs.open_ w.host p flags 0o666).2 := by
          simp only [unlock_db, hh3, lock_db, hh]
        apply I2_fresh_target fs w _ p (refresh fs (fs.open_ w.host p flags 0o666).2 w.db p) hinv
        · intro q
          exact (hframe q).imp_left fun h => h.2.1
        · intro q
          rw [refresh_inodeKey, hhost]
          by_cases hq : q = p ∧ inode_for_path fs (fs.open_ w.host p flags 0o666).2 p ≠ 0
          · exact Or.inr ⟨hq.1, by simp [hq]⟩
          · exact Or.inl (by simp [hq])
        · intro q
          rw [hhost]
          simp only [unlock_db, hd3, gdbm_store_apply, inodeKey_ne_statKeyOf, if_false, lock_db,
            hd, hh]
  · simp only [Option.some.injEq, Prod.mk.injEq] at hrun
    obtain ⟨hr, hw⟩ := hrun
    subst hw
    exact I2_same_db fs w _ _ hinv hframe (fun q h => hcreat (by simpa using h.2.2)) rfl

/-- C10, amended: a call of open, link, unlink, rmdir, rename, symlink or mkdir that
returns keeps invariant I2, provided that each path either is the one the call names as
new and the call succeeds (the opened path under `O_CREAT`, the destination of link and
rename, the link of symlink, the directory of mkdir), or has after the call the inode it
had before, or does not exist after the call, or has no record `inode <path>` before the
call and is not the path whose stat key unlink, rmdir or rename computes. Renames of
directories with entries are covered when the database holds no record `inode <path>`
for a path that comes into being beneath the destination. -/
theorem calls_preserve_I2 (fs : RealFS H) (uid gid : Nat) (w w' : World H) (c : Call)
    (ok : Bool) (herr : ∀ e, e < 0 → fs.errno_map e < 0) (hinv : I2 fs w)
    (hexec : exec fs uid gid w c = some (ok, w'))
    (hframe : ∀ q, (ok = true ∧ c.creates q = true) ∨
      inode_for_path fs w'.host q = inode_for_path fs w.host q ∨
      inode_for_path fs w'.host q = 0 ∨
      (c.keyed q = false ∧ w.db (inodeKey q) = none)) :
    I2 fs w' := by
  cases c with
  | open_ path flags mode =>
    simp only [exec, Option.map_eq_some', Prod.mk.injEq] at hexec
    obtain ⟨⟨r, w1⟩, hrun, hok, hw⟩ := hexec
    simp only at hok hw
    subst hw
    apply open_preserves_I2 fs uid gid w w1 path flags mode r hinv hrun
    intro q
    rcases hframe q with h | h | h | h
    · left
      simpa [Call.creates, ← hok] using h
    · exact Or.inr (Or.inl h)
    · exact Or.inr (Or.inr (Or.inl h))
    · exact Or.inr (Or.inr (Or.inr h.2))
  | link src dst =>
    simp only [exec, Option.some.injEq, Prod.mk.injEq] at hexec
    obtain ⟨hok, hw⟩ := hexec
    subst hw
    apply link_preserves_I2 fs w src dst hinv
    intro q
    rcases hframe q with h | h | h | h
    · left
      simpa [Call.creates, ← hok] using h
    · exact Or.inr (Or.inl h)
    · exact Or.inr (Or.inr (Or.inl h))
    · exact Or.inr (Or.inr (Or.inr h.2))
  | unlink path =>
    simp only [exec, Option.some.injEq, Prod.mk.injEq] at hexec
    obtain ⟨hok, hw⟩ := hexec
    subst hw
    apply unlink_preserves_I2 fs w path hinv
    intro q
    rcases hframe q with h | h | h | h
    · simp [Call.creates] at h
    · exact Or.inr (Or.inl h)
    · exact Or.inr (Or.inr (Or.inl h))
    · exact Or.inr (Or.inr (Or.inr (by simpa [Call.keyed] using h)))
  | rmdir path =>
    simp only [exec, Option.some.injEq, Prod.mk.injEq] at hexec
    obtain ⟨hok, hw⟩ := hexec
    subst hw
    apply rmdir_preserves_I2 fs w path hinv
    intro q
    rcases hframe q with h | h | h | h
    · simp [Call.creates] at h
    · exact Or.inr (Or.inl h)
    · exact Or.inr (Or.inr (Or.inl h))
    · exact Or.inr (Or.inr (Or.inr (by simpa [Call.keyed] using h)))
  | rename src dst =>
    simp only [exec, Option.some.injEq, Prod.mk.injEq] at hexec
    obtain ⟨hok, hw⟩ := hexec
    subst hw
    apply rename_preserves_I2 fs w src dst hinv
    intro q
    rcases hframe q with h | h | h | h
    · left
      simpa [Call.creates, ← hok] using h
    · exact Or.inr (Or.inl h)
    · exact Or.inr (Or.inr (Or.inl h))
    · exact Or.inr (Or.inr (Or.inr (by simpa [Call.keyed] using h)))
  | symlink target lnk =>
    simp only [exec, Option.map_eq_some', Prod.mk.injEq] at hexec
    obtain ⟨⟨r, w1⟩, hrun, hok, hw⟩ := hexec
    simp only at hok hw
    subst hw
    apply symlink_preserves_I2 fs uid gid w w1 target lnk r herr hinv hrun
    intro q
    rcases hframe q with h | h | h | h
    · left
      simpa [Call.creates, ← hok] using h
    · exact Or.inr (Or.inl h)
    · exact Or.inr (Or.inr (Or.inl h))
    · exact Or.inr (Or.inr (Or.inr h.2))
  | mkdir path mode =>
    simp only [exec, Option.map_eq_some', Prod.mk.injEq] at hexec
    obtain ⟨⟨r, w1⟩, hrun, hok, hw⟩ := hexec
    simp only at hok hw
    subst hw
    apply mkdir_preserves_I2 fs uid gid w w1 path mode r hinv hrun
    intro q
    rcases hframe q with h | h | h | h
    · left
      simpa [Call.creates, ← hok] using h
    · exact Or.inr (Or.inl h)
    · exact Or.inr (Or.inr (Or.inl h))
    · exact Or.inr (Or.inr (Or.inr h.2))

theorem dirRenameWorld_I2 : I2 unixfs dirRenameWorld := by
  intro q v hv
  simp only [dirRenameWorld, dbOf, assoc, inodeKey_inj, inodeKey_ne_statKeyOf, if_false] at hv
  split_ifs at hv with h1 h2 h3 h4 h5
  all_goals (cases hv; subst_vars; decide)

/-- C10, as stated, fails: I2 holds, the directory `/a` with the file `/a/f` is renamed to
`/b`, and afterwards the record `inode /b/f` still holds 9, the inode of `/c/f`, while
`/b/f` has inode 7. -/
theorem rename_of_directory_breaks_I2 :
    I2 unixfs dirRenameWorld ∧
    (fakefs_rename unixfs dirRenameWorld (bytes "/a") (bytes "/b")).1 = 0 ∧
    ¬ I2 unixfs (fakefs_rename unixfs dirRenameWorld (bytes "/a") (bytes "/b")).2 := by
  refine ⟨dirRenameWorld_I2, by decide, ?_⟩
  intro h
  have h2 := h (bytes "/b/f") (decimal 9) (by decide)
  revert h2
  decide

theorem dirCleanWorld_I2 : I2 unixfs dirCleanWorld := by
  intro q v hv
  simp only [dirCleanWorld, dbOf, assoc, inodeKey_inj, inodeKey_ne_statKeyOf, if_false] at hv
  split_ifs at hv with h1 h2 h3 h4
  all_goals (cases hv; subst_vars; decide)

theorem dirCleanWorld_rename_frame (q : List Nat) :
    (true = true ∧ (Call.rename (bytes "/a") (bytes "/b")).creates q = true) ∨
    inode_for_path unixfs (fakefs_rename unixfs dirCleanWorld (bytes "/a") (bytes "/b")).2.host q
      = inode_for_path unixfs dirCleanWorld.host q ∨
    inode_for_path unixfs (fakefs_rename unixfs dirCleanWorld (bytes "/a") (bytes "/b")).2.host q
      = 0 ∨
    ((Call.rename (bytes "/a") (bytes "/b")).keyed q = false ∧
      dirCleanWorld.db (inodeKey q) = none) := by
  have hhost : (fakefs_rename unixfs dirCleanWorld (bytes "/a") (bytes "/b")).2.host
      = ⟨[(bytes "/b", 3), (bytes "/b/f", 7), (bytes "/c", 4), (bytes "/c/f", 9)],
          [(3, Node.dir), (7, Node.reg []), (4, Node.dir), (9, Node.reg [])], 10, 99,
          bytes "/fs/meta.db", []⟩ := by
    decide
  rw [hhost]
  by_cases h0 : q = bytes "/b"
  · subst h0
    left
    decide
  · by_cases h1 : q = bytes "/b/f"
    · subst h1
      right
      right
      right
      decide
    · by_cases h2 : q = bytes "/c"
      · subst h2
        right
        left
        decide
      · by_cases h3 : q = bytes "/c/f"
        · subst h3
          right
          left
          decide
        · right
          right
          left
          simp [inode_for_path, unixfs, UHost.ino, assoc, h0, h1, h2, h3]

/-- C10, amended, on the small host: the directory `/a` with the file `/a/f` is renamed
to `/b`, and the database holds no record `inode /b/f`. -/
theorem calls_preserve_I2_witness :
    I2 unixfs (fakefs_rename unixfs dirCleanWorld (bytes "/a") (bytes "/b")).2 :=
  calls_preserve_I2 unixfs 1000 1000 dirCleanWorld _
    (Call.rename (bytes "/a") (bytes "/b")) true (fun _ h => h) dirCleanWorld_I2 rfl
    dirCleanWorld_rename_frame

end Claims

end Fakefs
